import Mathlib

/-
Shallow embedding of the MeetingMinutesTool persistence core (store.py,
models.py).  Pure functions of the source are translated to Lean functions;
filesystem contents are modelled explicitly; `uuid.uuid4().hex` fresh-id
generation is modelled by an identifier supply passed as a parameter
(indexed by the syntactic position of the entity being decoded, which is a
faithful rendering of "a fresh identifier is drawn at this site");
`datetime.now()` / `date.today()` are parameters.  Machine integers are
Python bignums, so plain `Int`/`Nat` model them exactly; Python `//` and `%`
on a positive divisor are floor division / nonnegative remainder, which for
a positive literal divisor coincide with `Int.ediv` / `Int.emod`.
-/

namespace MMT

/-! ### Decimal rendering and parsing (models Python `str(int)` / `int(str)`) -/

/-- Decimal digit character for `n < 10` (for larger `n` it is only applied
to `n % 10`). -/
def digitChar (n : Nat) : Char :=
  match n with
  | 0 => '0' | 1 => '1' | 2 => '2' | 3 => '3' | 4 => '4'
  | 5 => '5' | 6 => '6' | 7 => '7' | 8 => '8' | _ => '9'

/-- Numeric value of an ASCII digit character, `none` for anything else. -/
def digitVal? (c : Char) : Option Nat :=
  if '0' ≤ c ∧ c ≤ '9' then some (c.toNat - 48) else none

/-- Fuel-based helper for decimal rendering (structural recursion so that
concrete evaluation reduces in the kernel); correct whenever `n < fuel`. -/
def natToDigitsAux : Nat → Nat → List Char
  | 0, _ => []
  | fuel + 1, n =>
    if n < 10 then [digitChar n]
    else natToDigitsAux fuel (n / 10) ++ [digitChar (n % 10)]

/-- Decimal digits of a natural number, most significant first (as Python
`str` renders a nonnegative integer). -/
def natToDigits (n : Nat) : List Char := natToDigitsAux (n + 1) n

/-- Accumulator-style decimal parser over a digit list; fails on the first
non-digit character. -/
def parseNatAux : List Char → Nat → Option Nat
  | [], acc => some acc
  | c :: cs, acc =>
    match digitVal? c with
    | none => none
    | some d => parseNatAux cs (acc * 10 + d)

/-- Parse a nonempty all-digit character list as a natural number (models
Python `int(s)` on a string of ASCII digits; `int("")` raises, hence
`none` on the empty list). -/
def parseNat (l : List Char) : Option Nat :=
  if l.isEmpty then none else parseNatAux l 0

/-- Python `str(i)` for `i : Int`: optional minus sign followed by the
decimal digits of the absolute value. -/
def intToStr (i : Int) : String :=
  if i < 0 then String.mk ('-' :: natToDigits (-i).toNat)
  else String.mk (natToDigits i.toNat)

/-- Python `int(s)` restricted to the forms the store ever produces or
probes: an optional leading minus sign followed by decimal digits.  (Python
also tolerates surrounding whitespace, a plus sign and underscores; none of
those occur in the store's own output, and on them this model is merely
stricter than `int`, never wrongly successful.) -/
def parseInt (s : String) : Option Int :=
  match s.data with
  | [] => none
  | c :: rest =>
    if c = '-' then (parseNat rest).map (fun n => -(n : Int))
    else (parseNat (c :: rest)).map (fun n => (n : Int))

theorem digitVal?_digitChar (d : Nat) (h : d < 10) :
    digitVal? (digitChar d) = some d := by
  interval_cases d <;> rfl

theorem digitChar_is_digit (d : Nat) :
    '0' ≤ digitChar d ∧ digitChar d ≤ '9' := by
  unfold digitChar
  split <;> exact ⟨by decide, by decide⟩

theorem natToDigits_ne_nil (n : Nat) : natToDigits n ≠ [] := by
  show natToDigitsAux (n + 1) n ≠ []
  unfold natToDigitsAux
  split <;> simp

theorem natToDigitsAux_all_digits :
    ∀ fuel n, ∀ c ∈ natToDigitsAux fuel n, '0' ≤ c ∧ c ≤ '9' := by
  intro fuel
  induction fuel with
  | zero => intro n c hc; simp [natToDigitsAux] at hc
  | succ f ih =>
    intro n c hc
    unfold natToDigitsAux at hc
    split at hc
    · simp only [List.mem_singleton] at hc
      subst hc; exact digitChar_is_digit n
    · rcases List.mem_append.mp hc with h1 | h2
      · exact ih (n / 10) c h1
      · simp only [List.mem_singleton] at h2
        subst h2; exact digitChar_is_digit (n % 10)

theorem natToDigits_all_digits (n : Nat) :
    ∀ c ∈ natToDigits n, '0' ≤ c ∧ c ≤ '9' :=
  natToDigitsAux_all_digits (n + 1) n

theorem parseNatAux_append (l1 l2 : List Char) (acc : Nat) :
    parseNatAux (l1 ++ l2) acc =
      match parseNatAux l1 acc with
      | none => none
      | some a => parseNatAux l2 a := by
  induction l1 generalizing acc with
  | nil => rfl
  | cons c cs ih =>
    simp only [List.cons_append, parseNatAux]
    cases digitVal? c with
    | none => rfl
    | some d => exact ih (acc * 10 + d)

theorem parseNatAux_natToDigitsAux :
    ∀ fuel n, n < fuel → ∃ w : Nat, 0 < w ∧
      ∀ acc : Nat, parseNatAux (natToDigitsAux fuel n) acc = some (acc * w + n) := by
  intro fuel
  induction fuel with
  | zero => intro n h; omega
  | succ f ih =>
    intro n hn
    by_cases h : n < 10
    · refine ⟨10, by omega, fun acc => ?_⟩
      unfold natToDigitsAux
      rw [if_pos h]
      simp [parseNatAux, digitVal?_digitChar n h]
    · have hd : n / 10 < n := Nat.div_lt_self (by omega) (by omega)
      obtain ⟨w, hw, hrec⟩ := ih (n / 10) (by omega)
      refine ⟨w * 10, by omega, fun acc => ?_⟩
      conv_lhs => rw [natToDigitsAux]
      rw [if_neg h, parseNatAux_append, hrec acc]
      simp only [parseNatAux, digitVal?_digitChar (n % 10) (by omega)]
      have hdm : 10 * (n / 10) + n % 10 = n := Nat.div_add_mod n 10
      congr 1
      have : acc * w * 10 = acc * (w * 10) := by ring
      omega

theorem parseNat_natToDigits (n : Nat) : parseNat (natToDigits n) = some n := by
  obtain ⟨w, _, hw⟩ := parseNatAux_natToDigitsAux (n + 1) n (by omega)
  unfold parseNat
  rw [if_neg (by simpa using natToDigits_ne_nil n)]
  simpa using hw 0

theorem parseInt_intToStr (i : Int) : parseInt (intToStr i) = some i := by
  unfold intToStr
  by_cases h : i < 0
  · rw [if_pos h]
    have h1 : parseInt (String.mk ('-' :: natToDigits (-i).toNat)) =
        (parseNat (natToDigits (-i).toNat)).map (fun n => -(n : Int)) := rfl
    rw [h1, parseNat_natToDigits]
    show some (-(((-i).toNat : Nat) : Int)) = some i
    congr 1
    omega
  · rw [if_neg h]
    obtain ⟨c, cs, hc⟩ : ∃ c cs, natToDigits i.toNat = c :: cs := by
      cases hnd : natToDigits i.toNat with
      | nil => exact absurd hnd (natToDigits_ne_nil _)
      | cons c cs => exact ⟨c, cs, rfl⟩
    have hdig := natToDigits_all_digits i.toNat c (by rw [hc]; simp)
    have hcne : ¬ c = '-' := by rintro rfl; revert hdig; decide
    have h1 : parseInt (String.mk (c :: cs)) =
        if c = '-' then (parseNat cs).map (fun n => -(n : Int))
        else (parseNat (c :: cs)).map (fun n => (n : Int)) := rfl
    rw [hc, h1, if_neg hcne, ← hc, parseNat_natToDigits]
    show some ((i.toNat : Nat) : Int) = some i
    congr 1
    omega

/-! ### Stable sort by an integer key (models Python `sorted(xs, key=...)`) -/

/-- Insert `x` into `l` before the first element whose key is at least
`key x`; used to build a stable ascending sort. -/
def insKeyed (key : α → Int) (x : α) : List α → List α
  | [] => [x]
  | y :: ys => if key x ≤ key y then x :: y :: ys else y :: insKeyed key x ys

/-- Stable ascending sort by an integer key.  Python's `sorted` is exactly
the stable ascending reordering, which is unique, so this computes the same
list. -/
def sortKeyed (key : α → Int) : List α → List α
  | [] => []
  | x :: xs => insKeyed key x (sortKeyed key xs)

/-! ### Data model (models.py) -/

/-- Note dataclass of models.py. -/
structure Note where
  id : String
  text : String
  meeting_date : String
  created_at : String
  is_addendum : Bool
deriving DecidableEq, Repr

/-- Item dataclass of models.py. -/
structure Item where
  id : String
  description : String
  status : String
  assignee_id : Option String
  priority : String
  due_date : Option String
  tags : List String
  order : Int
  section_name : String
  notes : List Note
deriving DecidableEq, Repr

/-- Section dataclass of models.py. -/
structure Section where
  id : String
  name : String
  order : Int
deriving DecidableEq, Repr

/-- MeetingHeader dataclass of models.py; `end` is a Lean keyword, so the
field is called `end_`. -/
structure MeetingHeader where
  topic : String
  date : String
  start : String
  end_ : String
  location : String
  teams_link : String
deriving DecidableEq, Repr

/-- Meeting dataclass of models.py. -/
structure Meeting where
  id : String
  number : String
  header : MeetingHeader
  sections : List Section
  items : List Item
  finalized_at : Option String
deriving DecidableEq, Repr

/-- Track dataclass of models.py. -/
structure Track where
  id : String
  name : String
  slug : String
  defaults_location : String
  defaults_teams_link : String
  roster : List String
  section_templates : List String
  recurrence_mode : String
  recurrence_interval : Int
deriving DecidableEq, Repr

/-! ### XML element trees (models the lxml element trees the store builds
and re-parses).  An element has a tag, attributes, text content and child
elements.  Because every tree the store reads has been serialized to a file
and re-parsed, text content set to the empty string comes back as absent
text; the encoder below normalizes accordingly (`textOf`). -/

/-- An XML element: tag, attribute list, optional text, children. -/
inductive XElem where
  | mk (tag : String) (attrs : List (String × String)) (text : Option String)
       (children : List XElem)

/-- Tag of an element. -/
def XElem.tag : XElem → String
  | .mk t _ _ _ => t

/-- Attribute list of an element. -/
def XElem.attrs : XElem → List (String × String)
  | .mk _ a _ _ => a

/-- Text of an element (absent for an element serialized with empty text). -/
def XElem.text : XElem → Option String
  | .mk _ _ tx _ => tx

/-- Children of an element. -/
def XElem.children : XElem → List XElem
  | .mk _ _ _ c => c

/-- First value bound to a key in an attribute list (models
`element.get(key)`, which returns `None` for a missing attribute). -/
def lookupAttr : List (String × String) → String → Option String
  | [], _ => none
  | (k, v) :: r, key => if k = key then some v else lookupAttr r key

/-- `element.get(key)` of lxml. -/
def XElem.get (x : XElem) (key : String) : Option String :=
  lookupAttr x.attrs key

/-- Children carrying a given tag, in document order (models
`element.findall(tag)` for a single-segment path). -/
def XElem.childrenNamed (x : XElem) (t : String) : List XElem :=
  x.children.filter (fun c => c.tag = t)

/-- First child carrying a given tag (models `element.find(tag)`). -/
def XElem.find1 (x : XElem) (t : String) : Option XElem :=
  (x.childrenNamed t).head?

/-- `element.findall("a/b")`: the `b`-tagged children of every `a`-tagged
child, in document order. -/
def XElem.findall2 (x : XElem) (a b : String) : List XElem :=
  (x.childrenNamed a).flatMap (fun c => c.childrenNamed b)

/-- `element.findtext(tag)`: `None` when no such child exists, otherwise
the child's text, with absent text read as the empty string. -/
def XElem.findtext1 (x : XElem) (t : String) : Option String :=
  (x.find1 t).map (fun e => e.text.getD "")

/-- `element.findtext("a/b")`. -/
def XElem.findtext2 (x : XElem) (a b : String) : Option String :=
  (x.findall2 a b).head?.map (fun e => e.text.getD "")

/-- Text assignment as observed after serializing to a file and re-parsing:
an element written with empty text reads back with no text. -/
def textOf (s : String) : Option String :=
  if s = "" then none else some s

/-- Python truthiness-based defaulting `x or d` for a string already in
hand. -/
def pyOr (a d : String) : String :=
  if a = "" then d else a

/-- Python `x or d` where `x` is an `element.get`/`findtext` result
(`None` and `""` are both falsy). -/
def pyOrD (o : Option String) (d : String) : String :=
  match o with
  | none => d
  | some s => if s = "" then d else s

/-- Python `x == "lit"` where `x` is an `element.get` result (`None`
compares unequal to any string). -/
def pyEqStr (o : Option String) (lit : String) : Bool :=
  match o with
  | none => false
  | some s => s = lit

/-- Python `for`-loop accumulation of fallible per-element results: stops
with `none` at the first failure (an uncaught exception), otherwise
collects all results in order. -/
def mapOpt (f : α → Option β) : List α → Option (List β)
  | [] => some []
  | a :: l =>
    match f a with
    | none => none
    | some b => (mapOpt f l).map (fun bs => b :: bs)

/-- Pairs each list element with its position, starting at `i0` (for the
position-indexed fresh-identifier supply). -/
def enumL (i0 : Nat) : List α → List (Nat × α)
  | [] => []
  | a :: l => (i0, a) :: enumL (i0 + 1) l

/-! ### save_meeting: the XML element tree built by XMLStore.save_meeting
(store.py lines 169-192), as it reads back after the file round trip. -/

/-- Note element written by save_meeting. -/
def encode_note (n : Note) : XElem :=
  .mk "Note"
    [("id", n.id), ("meetingDate", n.meeting_date), ("createdAt", n.created_at),
     ("addendum", if n.is_addendum then "true" else "false")]
    (textOf n.text) []

/-- Item element written by save_meeting: `Assignee` and `DueDate` are
emitted only when truthy (present and nonempty). -/
def encode_item (it : Item) : XElem :=
  .mk "Item" [("id", it.id), ("status", it.status), ("order", intToStr it.order)] none
    ([XElem.mk "Description" [] (textOf it.description) []]
     ++ (match it.assignee_id with
         | none => []
         | some a => if a = "" then [] else [XElem.mk "Assignee" [("ref", a)] none []])
     ++ [XElem.mk "Priority" [] (textOf it.priority) []]
     ++ (match it.due_date with
         | none => []
         | some d0 => if d0 = "" then [] else [XElem.mk "DueDate" [] (textOf d0) []])
     ++ [XElem.mk "Tags" [] none (it.tags.map (fun tg => XElem.mk "Tag" [] (textOf tg) [])),
         XElem.mk "Notes" [] none (it.notes.map encode_note)])

/-- Section element written by save_meeting, containing the given items. -/
def encode_section (s : Section) (its : List Item) : XElem :=
  .mk "Section" [("id", s.id), ("name", s.name), ("order", intToStr s.order)] none
    (its.map encode_item)

/-- Root Meeting element written by save_meeting: sections sorted by
`order`, each holding the meeting's items whose `section_name` equals the
section's name, sorted by `order`; `FinalizedAt` only when truthy. -/
def save_meeting_xml (m : Meeting) : XElem :=
  .mk "Meeting" [("id", m.id), ("number", m.number)] none
    ([XElem.mk "Header" [] none
        [.mk "Topic" [] (textOf m.header.topic) [],
         .mk "Date" [] (textOf m.header.date) [],
         .mk "Start" [] (textOf m.header.start) [],
         .mk "End" [] (textOf m.header.end_) [],
         .mk "Location" [] (textOf m.header.location) [],
         .mk "TeamsLink" [] (textOf m.header.teams_link) []],
      XElem.mk "Agenda" [] none
        ((sortKeyed Section.order m.sections).map
          (fun s => encode_section s
            (sortKeyed Item.order
              (m.items.filter (fun i => i.section_name = s.name)))))]
     ++ (match m.finalized_at with
         | none => []
         | some f => if f = "" then [] else [XElem.mk "FinalizedAt" [] (textOf f) []]))

/-! ### load_meeting: decoding an already-parsed meeting.xml element tree
(store.py lines 140-167).  `int(e.get("order") or 0)` raises ValueError on
a non-numeric attribute; that uncaught exception is modelled by `none`. -/

/-- `int(e.get("order") or 0)`: missing or empty attribute defaults to 0;
a non-numeric value raises (modelled as `none`). -/
def parseOrderAttr (o : Option String) : Option Int :=
  match o with
  | none => some 0
  | some s => if s = "" then some 0 else parseInt s

/-- Decoding of one Note element; `i j k` locate the fresh-id supply site
for a missing/empty id, `mdate` is the already-decoded header date, `now`
the current timestamp. -/
def decode_note (u : Nat → Nat → Nat → Nat → String) (i j k : Nat)
    (mdate now : String) (ne : XElem) : Note :=
  { id := pyOrD (ne.get "id") (u 3 i j k)
    text := ne.text.getD ""
    meeting_date := pyOrD (ne.get "meetingDate") mdate
    created_at := pyOrD (ne.get "createdAt") now
    is_addendum := pyEqStr (ne.get "addendum") "true" }

/-- Decoding of one Item element nested in the section named `sname`. -/
def decode_item (u : Nat → Nat → Nat → Nat → String) (i j : Nat)
    (sname mdate now : String) (ie : XElem) : Option Item :=
  match parseOrderAttr (ie.get "order") with
  | none => none
  | some ord => some
    { id := pyOrD (ie.get "id") (u 2 i j 0)
      description := pyOrD (ie.findtext1 "Description") ""
      status := pyOrD (ie.get "status") "OPEN"
      assignee_id :=
        match ie.find1 "Assignee" with
        | none => none
        | some ae => ae.get "ref"
      priority := pyOrD (ie.findtext1 "Priority") "Normal"
      due_date := ie.findtext1 "DueDate"
      tags := (ie.findall2 "Tags" "Tag").map (fun te => te.text.getD "")
      order := ord
      section_name := sname
      notes := (enumL 0 (ie.findall2 "Notes" "Note")).map
        (fun p => decode_note u i j p.1 mdate now p.2) }

/-- Decoding of one Section element together with its items. -/
def decode_section (u : Nat → Nat → Nat → Nat → String) (i : Nat)
    (mdate now : String) (se : XElem) : Option (Section × List Item) :=
  match parseOrderAttr (se.get "order") with
  | none => none
  | some ord =>
    let s : Section :=
      { id := pyOrD (se.get "id") (u 1 i 0 0)
        name := pyOrD (se.get "name") ""
        order := ord }
    match mapOpt (fun p => decode_item u i p.1 s.name mdate now p.2)
        (enumL 0 (se.childrenNamed "Item")) with
    | none => none
    | some its => some (s, its)

/-- Decoding of a parsed meeting.xml root element, as load_meeting builds a
Meeting from it; `none` models an uncaught ValueError from `int(...)`. -/
def load_meeting_xml (t : Track) (u : Nat → Nat → Nat → Nat → String)
    (today now : String) (r : XElem) : Option Meeting :=
  let header : MeetingHeader :=
    { topic := pyOrD (r.findtext2 "Header" "Topic") ""
      date := pyOrD (r.findtext2 "Header" "Date") today
      start := pyOrD (r.findtext2 "Header" "Start") "09:00"
      end_ := pyOrD (r.findtext2 "Header" "End") "10:00"
      location := pyOrD (r.findtext2 "Header" "Location") t.defaults_location
      teams_link := pyOrD (r.findtext2 "Header" "TeamsLink") t.defaults_teams_link }
  match mapOpt (fun p => decode_section u p.1 header.date now p.2)
      (enumL 0 (r.findall2 "Agenda" "Section")) with
  | none => none
  | some secs => some
    { id := pyOrD (r.get "id") (u 0 0 0 0)
      number := pyOrD (r.get "number") "0001"
      header := header
      sections := secs.map Prod.fst
      items := (secs.map Prod.snd).flatten
      finalized_at :=
        match r.findtext1 "FinalizedAt" with
        | none => none
        | some f => if f = "" then none else some f }

/-! ### Renormalization: the semantic effect of save_meeting followed by
load_meeting, stated directly on the data model (proved equal to
decode-of-encode below). -/

/-- Effect of a save/load round trip on one note. -/
def normalize_note (u : Nat → Nat → Nat → Nat → String) (i j k : Nat)
    (mdate now : String) (n : Note) : Note :=
  { id := if n.id = "" then u 3 i j k else n.id
    text := n.text
    meeting_date := if n.meeting_date = "" then mdate else n.meeting_date
    created_at := if n.created_at = "" then now else n.created_at
    is_addendum := n.is_addendum }

/-- Effect of a save/load round trip on one item filed under the section
named `sname`. -/
def normalize_item (u : Nat → Nat → Nat → Nat → String) (i j : Nat)
    (sname mdate now : String) (it : Item) : Item :=
  { id := if it.id = "" then u 2 i j 0 else it.id
    description := it.description
    status := if it.status = "" then "OPEN" else it.status
    assignee_id :=
      match it.assignee_id with
      | none => none
      | some a => if a = "" then none else some a
    priority := if it.priority = "" then "Normal" else it.priority
    due_date :=
      match it.due_date with
      | none => none
      | some d0 => if d0 = "" then none else some d0
    tags := it.tags
    order := it.order
    section_name := sname
    notes := (enumL 0 it.notes).map (fun p => normalize_note u i j p.1 mdate now p.2) }

/-- Effect of a save/load round trip on one section. -/
def normalize_section (u : Nat → Nat → Nat → Nat → String) (i : Nat)
    (s : Section) : Section :=
  { id := if s.id = "" then u 1 i 0 0 else s.id
    name := s.name
    order := s.order }

/-- Normalized header after a round trip against track `t`. -/
def normalize_header (t : Track) (today : String) (h : MeetingHeader) :
    MeetingHeader :=
  { topic := h.topic
    date := if h.date = "" then today else h.date
    start := if h.start = "" then "09:00" else h.start
    end_ := if h.end_ = "" then "10:00" else h.end_
    location := if h.location = "" then t.defaults_location else h.location
    teams_link := if h.teams_link = "" then t.defaults_teams_link else h.teams_link }

/-- Effect of a save/load round trip on a whole meeting: header fields
defaulted when empty, sections re-sorted by order, items regrouped
section-major and re-sorted by order (items whose `section_name` matches no
section disappear; an item matching several equally-named sections is
duplicated), empty identifiers replaced from the supply. -/
def normalize_meeting (t : Track) (u : Nat → Nat → Nat → Nat → String)
    (today now : String) (m : Meeting) : Meeting :=
  let hdr := normalize_header t today m.header
  let sorted := sortKeyed Section.order m.sections
  { id := if m.id = "" then u 0 0 0 0 else m.id
    number := if m.number = "" then "0001" else m.number
    header := hdr
    sections := (enumL 0 sorted).map (fun p => normalize_section u p.1 p.2)
    items := ((enumL 0 sorted).map (fun p =>
      (enumL 0 (sortKeyed Item.order
          (m.items.filter (fun i => i.section_name = p.2.name)))).map
        (fun q => normalize_item u p.1 q.1 p.2.name hdr.date now q.2))).flatten
    finalized_at :=
      match m.finalized_at with
      | none => none
      | some f => if f = "" then none else some f }

/-! ### The decode-of-encode computation -/

@[simp]
theorem textOf_getD (s : String) : (textOf s).getD "" = s := by
  unfold textOf
  by_cases h : s = "" <;> simp [h]

@[simp]
theorem pyOrD_empty (s : String) : pyOrD (some s) "" = s := by
  unfold pyOrD
  by_cases h : s = "" <;> simp [h]

theorem pyOrD_some (s d : String) : pyOrD (some s) d = if s = "" then d else s := rfl

@[simp]
theorem ite_empty_id (s : String) : (if s = "" then "" else s) = s := by
  by_cases h : s = "" <;> simp [h]

@[simp]
theorem pyEqStr_addendum (b : Bool) :
    pyEqStr (some (if b then "true" else "false")) "true" = b := by
  cases b <;> rfl

theorem intToStr_ne_empty (i : Int) : intToStr i ≠ "" := by
  unfold intToStr
  have h1 := natToDigits_ne_nil (-i).toNat
  have h2 := natToDigits_ne_nil i.toNat
  split
  · intro hcon
    exact absurd (congrArg String.data hcon) (by simp)
  · intro hcon
    cases hnd : natToDigits i.toNat with
    | nil => exact h2 hnd
    | cons c cs =>
      rw [hnd] at hcon
      exact absurd (congrArg String.data hcon) (by simp)

@[simp]
theorem parseOrderAttr_intToStr (i : Int) :
    parseOrderAttr (some (intToStr i)) = some i := by
  show (if intToStr i = "" then some 0 else parseInt (intToStr i)) = some i
  rw [if_neg (intToStr_ne_empty i), parseInt_intToStr]

theorem enumL_map (f : α → β) (l : List α) :
    ∀ i0, enumL i0 (l.map f) = (enumL i0 l).map (fun p => (p.1, f p.2)) := by
  induction l with
  | nil => intro i0; rfl
  | cons a l ih =>
    intro i0
    simp only [List.map_cons, enumL, ih (i0 + 1), List.map_cons]

theorem mapOpt_map (f : β → Option γ) (h : α → β) (l : List α) :
    mapOpt f (l.map h) = mapOpt (fun a => f (h a)) l := by
  induction l with
  | nil => rfl
  | cons a l ih => simp only [List.map_cons, mapOpt, ih]

theorem mapOpt_eq_some (f : α → Option β) (g : α → β) (l : List α)
    (hfg : ∀ a ∈ l, f a = some (g a)) : mapOpt f l = some (l.map g) := by
  induction l with
  | nil => rfl
  | cons a l ih =>
    simp only [mapOpt, hfg a (by simp)]
    rw [ih (fun a ha => hfg a (by simp [ha]))]
    rfl

@[simp]
theorem encode_note_get_id (n : Note) : (encode_note n).get "id" = some n.id := rfl

@[simp]
theorem encode_note_get_meetingDate (n : Note) :
    (encode_note n).get "meetingDate" = some n.meeting_date := rfl

@[simp]
theorem encode_note_get_createdAt (n : Note) :
    (encode_note n).get "createdAt" = some n.created_at := rfl

@[simp]
theorem encode_note_get_addendum (n : Note) :
    (encode_note n).get "addendum" =
      some (if n.is_addendum then "true" else "false") := rfl

@[simp]
theorem encode_note_text (n : Note) : (encode_note n).text = textOf n.text := rfl

/-- Decoding an encoded note yields exactly its normalization. -/
theorem decode_encode_note (u : Nat → Nat → Nat → Nat → String)
    (i j k : Nat) (mdate now : String) (n : Note) :
    decode_note u i j k mdate now (encode_note n) =
      normalize_note u i j k mdate now n := by
  simp [decode_note, normalize_note, pyOrD]

@[simp]
theorem encode_item_get_id (it : Item) : (encode_item it).get "id" = some it.id := rfl

@[simp]
theorem encode_item_get_status (it : Item) :
    (encode_item it).get "status" = some it.status := rfl

@[simp]
theorem encode_item_get_order (it : Item) :
    (encode_item it).get "order" = some (intToStr it.order) := rfl

@[simp]
theorem encode_item_findtext_description (it : Item) :
    (encode_item it).findtext1 "Description" = some it.description := by
  simp [encode_item, XElem.findtext1, XElem.find1, XElem.childrenNamed,
    XElem.children, XElem.tag, XElem.text]

@[simp]
theorem encode_item_findtext_priority (it : Item) :
    (encode_item it).findtext1 "Priority" = some it.priority := by
  rcases hA : it.assignee_id with _ | a
  · simp [encode_item, XElem.findtext1, XElem.find1, XElem.childrenNamed,
      XElem.children, XElem.tag, XElem.text, hA]
  · by_cases ha : a = "" <;>
      simp [encode_item, XElem.findtext1, XElem.find1, XElem.childrenNamed,
        XElem.children, XElem.tag, XElem.text, hA, ha]

@[simp]
theorem encode_item_findtext_due (it : Item) :
    (encode_item it).findtext1 "DueDate" =
      (match it.due_date with
       | none => none
       | some d0 => if d0 = "" then none else some d0) := by
  rcases hA : it.assignee_id with _ | a
  · rcases hD : it.due_date with _ | d0
    · simp [encode_item, XElem.findtext1, XElem.find1, XElem.childrenNamed,
        XElem.children, XElem.tag, XElem.text, hA, hD]
    · by_cases hd : d0 = "" <;>
        simp [encode_item, XElem.findtext1, XElem.find1, XElem.childrenNamed,
          XElem.children, XElem.tag, XElem.text, textOf, hA, hD, hd]
  · rcases hD : it.due_date with _ | d0
    · by_cases ha : a = "" <;>
        simp [encode_item, XElem.findtext1, XElem.find1, XElem.childrenNamed,
          XElem.children, XElem.tag, XElem.text, hA, hD, ha]
    · by_cases ha : a = "" <;> by_cases hd : d0 = "" <;>
        simp [encode_item, XElem.findtext1, XElem.find1, XElem.childrenNamed,
          XElem.children, XElem.tag, XElem.text, textOf, hA, hD, ha, hd]

@[simp]
theorem encode_item_assignee (it : Item) :
    (match (encode_item it).find1 "Assignee" with
     | none => none
     | some ae => ae.get "ref") =
      (match it.assignee_id with
       | none => none
       | some a => if a = "" then none else some a) := by
  rcases hA : it.assignee_id with _ | a <;> rcases hD : it.due_date with _ | d0 <;>
    first
    | (by_cases ha : a = "" <;> by_cases hd : d0 = "" <;>
        simp [encode_item, XElem.find1, XElem.childrenNamed, XElem.children,
          XElem.tag, XElem.get, XElem.attrs, lookupAttr, hA, hD, ha, hd])
    | (by_cases ha : a = "" <;>
        simp [encode_item, XElem.find1, XElem.childrenNamed, XElem.children,
          XElem.tag, XElem.get, XElem.attrs, lookupAttr, hA, hD, ha])
    | (by_cases hd : d0 = "" <;>
        simp [encode_item, XElem.find1, XElem.childrenNamed, XElem.children,
          XElem.tag, XElem.get, XElem.attrs, lookupAttr, hA, hD, hd])
    | simp [encode_item, XElem.find1, XElem.childrenNamed, XElem.children,
        XElem.tag, XElem.get, XElem.attrs, lookupAttr, hA, hD]

@[simp]
theorem encode_item_tags (it : Item) :
    (encode_item it).findall2 "Tags" "Tag" =
      it.tags.map (fun tg => XElem.mk "Tag" [] (textOf tg) []) := by
  have hall : ∀ l : List String,
      (l.map (fun tg => XElem.mk "Tag" [] (textOf tg) [])).filter
        (fun c => c.tag = "Tag") =
      l.map (fun tg => XElem.mk "Tag" [] (textOf tg) []) := by
    intro l
    rw [List.filter_eq_self]
    intro e he
    simp only [List.mem_map] at he
    obtain ⟨b, _, rfl⟩ := he
    simp [XElem.tag]
  rcases hA : it.assignee_id with _ | a <;> rcases hD : it.due_date with _ | d0 <;>
    first
    | (by_cases ha : a = "" <;> by_cases hd : d0 = "" <;>
        simp [encode_item, XElem.findall2, XElem.childrenNamed, XElem.children,
          XElem.tag, hA, hD, ha, hd, hall])
    | (by_cases ha : a = "" <;>
        simp [encode_item, XElem.findall2, XElem.childrenNamed, XElem.children,
          XElem.tag, hA, hD, ha, hall])
    | (by_cases hd : d0 = "" <;>
        simp [encode_item, XElem.findall2, XElem.childrenNamed, XElem.children,
          XElem.tag, hA, hD, hd, hall])
    | simp [encode_item, XElem.findall2, XElem.childrenNamed, XElem.children,
        XElem.tag, hA, hD, hall]

@[simp]
theorem encode_item_notes (it : Item) :
    (encode_item it).findall2 "Notes" "Note" = it.notes.map encode_note := by
  have hall : (it.notes.map encode_note).filter (fun c => c.tag = "Note") =
      it.notes.map encode_note := by
    rw [List.filter_eq_self]
    intro e he
    simp only [List.mem_map] at he
    obtain ⟨b, _, rfl⟩ := he
    simp [encode_note, XElem.tag]
  rcases hA : it.assignee_id with _ | a <;> rcases hD : it.due_date with _ | d0 <;>
    first
    | (by_cases ha : a = "" <;> by_cases hd : d0 = "" <;>
        simp [encode_item, encode_note, XElem.findall2, XElem.childrenNamed,
          XElem.children, XElem.tag, hA, hD, ha, hd, hall])
    | (by_cases ha : a = "" <;>
        simp [encode_item, encode_note, XElem.findall2, XElem.childrenNamed,
          XElem.children, XElem.tag, hA, hD, ha, hall])
    | (by_cases hd : d0 = "" <;>
        simp [encode_item, encode_note, XElem.findall2, XElem.childrenNamed,
          XElem.children, XElem.tag, hA, hD, hd, hall])
    | simp [encode_item, encode_note, XElem.findall2, XElem.childrenNamed,
        XElem.children, XElem.tag, hA, hD, hall]

/-- Decoding an encoded item yields exactly its normalization. -/
theorem decode_encode_item (u : Nat → Nat → Nat → Nat → String)
    (i j : Nat) (sname mdate now : String) (it : Item) :
    decode_item u i j sname mdate now (encode_item it) =
      some (normalize_item u i j sname mdate now it) := by
  simp only [decode_item, encode_item_get_order, parseOrderAttr_intToStr,
    encode_item_get_id, encode_item_get_status, encode_item_findtext_description,
    encode_item_findtext_priority, encode_item_findtext_due, encode_item_assignee,
    encode_item_tags, encode_item_notes, normalize_item, enumL_map, List.map_map]
  simp [pyOrD_some, XElem.text, decode_encode_note, Function.comp_def]

/-- Decoding an encoded section yields exactly its normalized section and
normalized items. -/
theorem decode_encode_section (u : Nat → Nat → Nat → Nat → String)
    (i : Nat) (mdate now : String) (s : Section) (its : List Item) :
    decode_section u i mdate now (encode_section s its) =
      some (normalize_section u i s,
        (enumL 0 its).map (fun q => normalize_item u i q.1 s.name mdate now q.2)) := by
  have hgo : (encode_section s its).get "order" = some (intToStr s.order) := rfl
  have hgi : (encode_section s its).get "id" = some s.id := rfl
  have hgn : (encode_section s its).get "name" = some s.name := rfl
  have hitems : (encode_section s its).childrenNamed "Item" = its.map encode_item := by
    simp only [encode_section, XElem.childrenNamed, XElem.children]
    rw [List.filter_eq_self]
    intro e he
    simp only [List.mem_map] at he
    obtain ⟨b, _, rfl⟩ := he
    simp [encode_item, XElem.tag]
  simp only [decode_section, hgo, hgi, hgn, parseOrderAttr_intToStr, hitems]
  rw [enumL_map, mapOpt_map]
  rw [mapOpt_eq_some _
    (fun q => normalize_item u i q.1 (pyOrD (some s.name) "") mdate now q.2) _
    (fun q _ => decode_encode_item u i q.1 (pyOrD (some s.name) "") mdate now q.2)]
  simp [normalize_section, pyOrD_some]

@[simp]
theorem smx_get_id (m : Meeting) : (save_meeting_xml m).get "id" = some m.id := rfl

@[simp]
theorem smx_get_number (m : Meeting) :
    (save_meeting_xml m).get "number" = some m.number := rfl

theorem smx_header (m : Meeting) :
    (save_meeting_xml m).findtext2 "Header" "Topic" = some m.header.topic ∧
    (save_meeting_xml m).findtext2 "Header" "Date" = some m.header.date ∧
    (save_meeting_xml m).findtext2 "Header" "Start" = some m.header.start ∧
    (save_meeting_xml m).findtext2 "Header" "End" = some m.header.end_ ∧
    (save_meeting_xml m).findtext2 "Header" "Location" = some m.header.location ∧
    (save_meeting_xml m).findtext2 "Header" "TeamsLink" = some m.header.teams_link := by
  rcases hF : m.finalized_at with _ | f <;>
    first
    | (by_cases hf : f = "" <;>
        simp [save_meeting_xml, XElem.findtext2, XElem.findall2, XElem.childrenNamed,
          XElem.children, XElem.tag, XElem.text, hF, hf])
    | simp [save_meeting_xml, XElem.findtext2, XElem.findall2, XElem.childrenNamed,
        XElem.children, XElem.tag, XElem.text, hF]

theorem smx_agenda (m : Meeting) :
    (save_meeting_xml m).findall2 "Agenda" "Section" =
      (sortKeyed Section.order m.sections).map
        (fun s => encode_section s
          (sortKeyed Item.order (m.items.filter (fun i => i.section_name = s.name)))) := by
  have hall : ∀ ss : List Section,
      ((ss.map (fun s => encode_section s
          (sortKeyed Item.order (m.items.filter (fun i => i.section_name = s.name))))).filter
        (fun c => c.tag = "Section")) =
      ss.map (fun s => encode_section s
          (sortKeyed Item.order (m.items.filter (fun i => i.section_name = s.name)))) := by
    intro ss
    rw [List.filter_eq_self]
    intro e he
    simp only [List.mem_map] at he
    obtain ⟨b, _, rfl⟩ := he
    simp [encode_section, XElem.tag]
  rcases hF : m.finalized_at with _ | f <;>
    first
    | (by_cases hf : f = "" <;>
        simp [save_meeting_xml, encode_section, XElem.findall2, XElem.childrenNamed,
          XElem.children, XElem.tag, hF, hf, hall])
    | simp [save_meeting_xml, encode_section, XElem.findall2, XElem.childrenNamed,
        XElem.children, XElem.tag, hF, hall]

theorem smx_finalized (m : Meeting) :
    (save_meeting_xml m).findtext1 "FinalizedAt" =
      (match m.finalized_at with
       | none => none
       | some f => if f = "" then none else some f) := by
  rcases hF : m.finalized_at with _ | f <;>
    first
    | (by_cases hf : f = "" <;>
        simp [save_meeting_xml, XElem.findtext1, XElem.find1, XElem.childrenNamed,
          XElem.children, XElem.tag, XElem.text, textOf, hF, hf])
    | simp [save_meeting_xml, XElem.findtext1, XElem.find1, XElem.childrenNamed,
        XElem.children, XElem.tag, XElem.text, hF]

/-- Master round-trip computation: decoding what save_meeting wrote yields
exactly the normalized meeting (in particular, decoding never fails). -/
theorem decode_encode_meeting (t : Track) (u : Nat → Nat → Nat → Nat → String)
    (today now : String) (m : Meeting) :
    load_meeting_xml t u today now (save_meeting_xml m) =
      some (normalize_meeting t u today now m) := by
  obtain ⟨h1, h2, h3, h4, h5, h6⟩ := smx_header m
  simp only [load_meeting_xml, h1, h2, h3, h4, h5, h6, smx_agenda, smx_get_id,
    smx_get_number, smx_finalized]
  rw [enumL_map, mapOpt_map]
  rw [mapOpt_eq_some _
    (fun p => (normalize_section u p.1 p.2,
      (enumL 0 (sortKeyed Item.order
          (m.items.filter (fun i => i.section_name = p.2.name)))).map
        (fun q => normalize_item u p.1 q.1 p.2.name
          (pyOrD (some m.header.date) today) now q.2))) _
    (fun p _ => decode_encode_section u p.1 (pyOrD (some m.header.date) today) now
      p.2 (sortKeyed Item.order (m.items.filter (fun i => i.section_name = p.2.name))))]
  rcases hF : m.finalized_at with _ | f
  · simp [normalize_meeting, normalize_header, pyOrD_some, List.map_map,
      Function.comp_def, hF]
  · by_cases hf : f = "" <;>
      simp [normalize_meeting, normalize_header, pyOrD_some, List.map_map,
        Function.comp_def, hF, hf]

/-! ### Well-formed meetings round-trip exactly -/

theorem mem_insKeyed (key : α → Int) (x y : α) (l : List α) :
    y ∈ insKeyed key x l ↔ y = x ∨ y ∈ l := by
  induction l with
  | nil => simp [insKeyed]
  | cons a l ih =>
    unfold insKeyed
    split
    · simp
    · simp only [List.mem_cons, ih]
      tauto

theorem mem_sortKeyed (key : α → Int) (y : α) (l : List α) :
    y ∈ sortKeyed key l ↔ y ∈ l := by
  induction l with
  | nil => simp [sortKeyed]
  | cons a l ih => simp [sortKeyed, mem_insKeyed, ih]

theorem enumL_mem_snd (l : List α) :
    ∀ i0, ∀ p ∈ enumL i0 l, p.2 ∈ l := by
  induction l with
  | nil => intro i0 p hp; simp [enumL] at hp
  | cons a l ih =>
    intro i0 p hp
    simp only [enumL, List.mem_cons] at hp
    rcases hp with rfl | hp
    · simp
    · exact List.mem_cons_of_mem a (ih (i0 + 1) p hp)

theorem enumL_map_snd_id (f : Nat → α → α) (l : List α)
    (h : ∀ i a, a ∈ l → f i a = a) :
    ∀ i0, (enumL i0 l).map (fun p => f p.1 p.2) = l := by
  induction l with
  | nil => intro i0; rfl
  | cons a l ih =>
    intro i0
    simp only [enumL, List.map_cons, h i0 a (by simp)]
    rw [ih (fun i b hb => h i b (by simp [hb])) (i0 + 1)]

theorem map_congr_mem (f g : α → β) (l : List α)
    (h : ∀ a ∈ l, f a = g a) : l.map f = l.map g := by
  induction l with
  | nil => rfl
  | cons a l ih =>
    simp only [List.map_cons, h a (by simp)]
    rw [ih (fun b hb => h b (by simp [hb]))]

/-- A note round-trips exactly when none of its defaultable string fields
is empty. -/
def note_wf (n : Note) : Prop :=
  n.id ≠ "" ∧ n.meeting_date ≠ "" ∧ n.created_at ≠ ""

instance (n : Note) : Decidable (note_wf n) := by unfold note_wf; infer_instance

/-- An item round-trips exactly when none of its truthiness-tested fields
is empty and all its notes are well formed. -/
def item_wf (it : Item) : Prop :=
  it.id ≠ "" ∧ it.status ≠ "" ∧ it.priority ≠ "" ∧
  it.assignee_id ≠ some "" ∧ it.due_date ≠ some "" ∧
  ∀ n ∈ it.notes, note_wf n

instance (it : Item) : Decidable (item_wf it) := by unfold item_wf; infer_instance

/-- A meeting round-trips exactly when its truthiness-tested fields are
nonempty, its sections and items are well formed, its sections are already
in stable order-sorted position, and its items are listed section-major in
stable order-sorted position (which also forces every item to belong to an
existing section). -/
def meeting_wf (m : Meeting) : Prop :=
  m.id ≠ "" ∧ m.number ≠ "" ∧
  m.header.date ≠ "" ∧ m.header.start ≠ "" ∧ m.header.end_ ≠ "" ∧
  m.header.location ≠ "" ∧ m.header.teams_link ≠ "" ∧
  m.finalized_at ≠ some "" ∧
  (∀ s ∈ m.sections, s.id ≠ "") ∧
  (∀ it ∈ m.items, item_wf it) ∧
  sortKeyed Section.order m.sections = m.sections ∧
  ((m.sections.map (fun s =>
      sortKeyed Item.order
        (m.items.filter (fun i => i.section_name = s.name)))).flatten = m.items)

instance (m : Meeting) : Decidable (meeting_wf m) := by
  unfold meeting_wf; infer_instance

theorem normalize_note_wf (u : Nat → Nat → Nat → Nat → String) (i j k : Nat)
    (mdate now : String) (n : Note) (h : note_wf n) :
    normalize_note u i j k mdate now n = n := by
  obtain ⟨h1, h2, h3⟩ := h
  cases n with
  | mk a b c d e => simp_all [normalize_note]

theorem normalize_item_wf (u : Nat → Nat → Nat → Nat → String) (i j : Nat)
    (sname mdate now : String) (it : Item) (h : item_wf it)
    (hsn : it.section_name = sname) :
    normalize_item u i j sname mdate now it = it := by
  obtain ⟨h1, h2, h3, h4, h5, h6⟩ := h
  obtain ⟨iid, idesc, istat, iass, iprio, idue, itags, iord, isec, inotes⟩ := it
  simp only at h1 h2 h3 h4 h5 h6 hsn
  subst hsn
  simp only [normalize_item, if_neg h1, if_neg h2, if_neg h3, Item.mk.injEq,
    true_and]
  refine ⟨?_, ?_, ?_⟩
  · rcases iass with _ | a
    · rfl
    · have : a ≠ "" := fun hcon => h4 (by rw [hcon])
      simp [this]
  · rcases idue with _ | d0
    · rfl
    · have : d0 ≠ "" := fun hcon => h5 (by rw [hcon])
      simp [this]
  · exact enumL_map_snd_id _ _
      (fun k a ha => normalize_note_wf u i j k mdate now a (h6 a ha)) 0

theorem normalize_section_wf (u : Nat → Nat → Nat → Nat → String) (i : Nat)
    (s : Section) (h : s.id ≠ "") : normalize_section u i s = s := by
  cases s with
  | mk a b c => simp_all [normalize_section]

theorem enumL_map_snd (g : α → β) (l : List α) :
    ∀ i0, (enumL i0 l).map (fun p => g p.2) = l.map g := by
  induction l with
  | nil => intro i0; rfl
  | cons a l ih => intro i0; simp only [enumL, List.map_cons, ih (i0 + 1)]

/-- A well-formed meeting is a fixed point of round-trip renormalization. -/
theorem normalize_meeting_wf (t : Track) (u : Nat → Nat → Nat → Nat → String)
    (today now : String) (m : Meeting) (h : meeting_wf m) :
    normalize_meeting t u today now m = m := by
  obtain ⟨h1, h2, h3, h4, h5, h6, h7, h8, h9, h10, hsort, harr⟩ := h
  have hsecs : (enumL 0 m.sections).map (fun p => normalize_section u p.1 p.2) =
      m.sections :=
    enumL_map_snd_id _ _ (fun k s hs => normalize_section_wf u k s (h9 s hs)) 0
  have hc : ∀ mdate nw : String, ∀ p ∈ enumL 0 m.sections,
      (enumL 0 (sortKeyed Item.order
          (m.items.filter (fun i => i.section_name = p.2.name)))).map
        (fun q => normalize_item u p.1 q.1 p.2.name mdate nw q.2) =
      sortKeyed Item.order (m.items.filter (fun i => i.section_name = p.2.name)) := by
    intro mdate nw p _
    refine enumL_map_snd_id
      (fun k q => normalize_item u p.1 k p.2.name mdate nw q) _
      (fun k q hq => ?_) 0
    have hq0 := (mem_sortKeyed _ _ _).mp hq
    have hq1 : q ∈ m.items := (List.mem_filter.mp hq0).1
    have hq2 : q.section_name = p.2.name :=
      of_decide_eq_true (List.mem_filter.mp hq0).2
    exact normalize_item_wf u p.1 k p.2.name mdate nw q (h10 q hq1) hq2
  have hitems : ∀ mdate nw : String, ((enumL 0 m.sections).map (fun p =>
      (enumL 0 (sortKeyed Item.order
          (m.items.filter (fun i => i.section_name = p.2.name)))).map
        (fun q => normalize_item u p.1 q.1 p.2.name mdate nw q.2))).flatten =
      m.items := by
    intro mdate nw
    rw [map_congr_mem _ _ _ (hc mdate nw),
      enumL_map_snd (fun s => sortKeyed Item.order
        (m.items.filter (fun i => i.section_name = s.name))) m.sections 0, harr]
  show Meeting.mk _ _ _ _ _ _ = m
  rw [show m = Meeting.mk m.id m.number m.header m.sections m.items m.finalized_at
    from rfl]
  simp only [normalize_meeting, normalize_header, hsort, Meeting.mk.injEq]
  refine ⟨by simp [h1], by simp [h2], ?_, hsecs, ?_, ?_⟩
  · rw [show m.header = MeetingHeader.mk m.header.topic m.header.date
      m.header.start m.header.end_ m.header.location m.header.teams_link from rfl]
    simp [MeetingHeader.mk.injEq, h3, h4, h5, h6, h7]
  · rw [if_neg h3]
    exact hitems m.header.date now
  · rcases hfin : m.finalized_at with _ | f
    · rfl
    · have : f ≠ "" := fun hcon => h8 (by rw [hfin, hcon])
      simp [this]

/-! ### slugify (store.py lines 9-12).  `uuid.uuid4().hex[:6]` is the
`token` parameter. -/

/-- ASCII whitespace stripped by `str.strip()`.  Python also strips other
Unicode whitespace (NBSP, U+2000..U+200A, U+3000, ...), but every such
character lies outside `[a-z0-9-]`, so when left in place it is collapsed
to a boundary hyphen which the final `strip("-")` removes — the slug is
the same either way; the ASCII set is modelled exactly. -/
def isPySpace (c : Char) : Bool :=
  c == ' ' || c == '\t' || c == '\n' || c == '\r' || c == '\x0b' || c == '\x0c'

/-- `str.strip()`: drop whitespace from both ends. -/
def pyStrip (l : List Char) : List Char :=
  ((l.dropWhile isPySpace).reverse.dropWhile isPySpace).reverse

/-- Python `str.lower()` of one character, as far as the slug pipeline can
observe it.  Per UnicodeData and SpecialCasing, the only lower mappings
whose output intersects the kept class `[a-z0-9-]` are: ASCII A-Z;
U+212A KELVIN SIGN, which lowers to 'k'; and U+0130 LATIN CAPITAL LETTER I
WITH DOT ABOVE, whose full lowercase is "i" followed by U+0307 COMBINING
DOT ABOVE.  Every other character's lowercase stays outside the class, so
the later collapse step treats original and lowered forms identically and
`Char.toLower` (which lowers exactly ASCII) is faithful for them. -/
def pyLowerChar (c : Char) : List Char :=
  if c.toNat = 0x130 then ['i', Char.ofNat 0x307]
  else if c.toNat = 0x212A then ['k']
  else [c.toLower]

/-- Characters of the class `[a-z0-9-]` kept by the slug regex. -/
def allowedChar (c : Char) : Bool :=
  (decide ('a' ≤ c) && decide (c ≤ 'z')) ||
  (decide ('0' ≤ c) && decide (c ≤ '9')) || c == '-'

/-- `re.sub(r"[^a-z0-9\-]+", "-", s)`: every maximal run of characters
outside the class becomes a single hyphen.  The boolean flag records being
inside such a run. -/
def collapseRuns : Bool → List Char → List Char
  | _, [] => []
  | inRun, c :: cs =>
    if allowedChar c then c :: collapseRuns false cs
    else if inRun then collapseRuns true cs
    else '-' :: collapseRuns true cs

/-- `str.strip("-")`: drop hyphens from both ends. -/
def stripHyphens (l : List Char) : List Char :=
  ((l.dropWhile (fun c => c == '-')).reverse.dropWhile (fun c => c == '-')).reverse

/-- The deterministic part of slugify: strip, lowercase, spaces to hyphens,
collapse disallowed runs to single hyphens, strip outer hyphens. -/
def slugify_core (name : String) : String :=
  String.mk (stripHyphens (collapseRuns false
    (((pyStrip name.data).flatMap pyLowerChar).map
      (fun c => if c = ' ' then '-' else c))))

/-- slugify of store.py: the deterministic core, or `"obj-" ++ token` (a
random six-hex-digit token in the source) when the core comes out empty. -/
def slugify (name : String) (token : String) : String :=
  let s := slugify_core name
  if s = "" then "obj-" ++ token else s

/-! ### next_meeting_number (store.py lines 77-83).  A directory listing is
modelled as a list of (name, is_dir) entries. -/

/-- Base code points of the 68 decimal-digit blocks (Unicode category Nd,
Unicode 15.0, as used by CPython 3.12): every decimal digit is `base + v`
for a value `v < 10`, and `int()` reads it as `v` (e.g.
`int('٣') = 3`). -/
def ndBases : List Nat :=
  [0x30, 0x660, 0x6F0, 0x7C0, 0x966, 0x9E6, 0xA66, 0xAE6, 0xB66, 0xBE6,
   0xC66, 0xCE6, 0xD66, 0xDE6, 0xE50, 0xED0, 0xF20, 0x1040, 0x1090, 0x17E0,
   0x1810, 0x1946, 0x19D0, 0x1A80, 0x1A90, 0x1B50, 0x1BB0, 0x1C40, 0x1C50,
   0xA620, 0xA8D0, 0xA900, 0xA9D0, 0xA9F0, 0xAA50, 0xABF0, 0xFF10, 0x104A0,
   0x10D30, 0x11066, 0x110F0, 0x11136, 0x111D0, 0x112F0, 0x11450, 0x114D0,
   0x11650, 0x116C0, 0x11730, 0x118E0, 0x11950, 0x11C50, 0x11D50, 0x11DA0,
   0x11F50, 0x16A60, 0x16AC0, 0x16B50, 0x1D7CE, 0x1D7D8, 0x1D7E2, 0x1D7EC,
   0x1D7F6, 0x1E140, 0x1E2F0, 0x1E4F0, 0x1E950, 0x1FBF0]

/-- Decimal-digit block base of a character; `none` when the character is
not a Unicode decimal digit. -/
def ndBase? (c : Char) : Option Nat :=
  ndBases.find? (fun b => decide (b ≤ c.toNat) && decide (c.toNat < b + 10))

/-- Numeric value of a Unicode decimal digit (within an isdigit-true
string, `int()` succeeds exactly on these characters). -/
def udigitVal? (c : Char) : Option Nat :=
  (ndBase? c).map (fun b => c.toNat - b)

/-- Accumulator parser over Unicode decimal digits: models `int(s)` on a
string of decimal digits in any script, e.g. `int("٣") = 3`. -/
def uparseNatAux : List Char → Nat → Option Nat
  | [], acc => some acc
  | c :: cs, acc =>
    match udigitVal? c with
    | none => none
    | some d => uparseNatAux cs (acc * 10 + d)

/-- `int(s)` on a nonempty all-decimal-digit string (fails otherwise). -/
def uparseNat (l : List Char) : Option Nat :=
  if l.isEmpty then none else uparseNatAux l 0

/-- Names that next_meeting_number counts: nonempty and all Unicode
decimal digits.  Python's `str.isdigit` additionally accepts
`Numeric_Type=Digit` characters such as '²', but on those `int()` raises
and the bare `except: pass` swallows the error, so the entry contributes
nothing — exactly as this test's rejecting it; on decimal digits of every
script (`'٣'`, fullwidth `'３'`, ...) `int()` succeeds and the entry is
counted, as `uparseNat` does. -/
def is_digits (s : String) : Bool :=
  !s.data.isEmpty && s.data.all (fun c => (ndBase? c).isSome)

/-- Python f-string `f"{n:04d}"`: decimal digits left-padded with zeros to
width 4. -/
def format04 (n : Nat) : String :=
  String.mk (List.replicate (4 - (natToDigits n).length) '0' ++ natToDigits n)

/-- XMLStore.next_meeting_number on a directory listing: max numeric
directory name plus one, zero-padded to 4 digits. -/
def next_meeting_number (entries : List (String × Bool)) : String :=
  format04 ((entries.foldl (fun maxn e =>
    if e.2 && is_digits e.1 then max maxn ((uparseNat e.1.data).getD 0) else maxn) 0) + 1)

/-- The maximum value among all-digit directory names (0 when none),
written as a filterMap for the specification-side reading. -/
def max_numeric (entries : List (String × Bool)) : Nat :=
  (entries.filterMap (fun e =>
    if e.2 && is_digits e.1 then uparseNat e.1.data else none)).foldl max 0

/-! ### create_meeting (store.py lines 91-105).  The fresh uuid for the new
meeting and for each copied item are parameters (`newId`, `uItems`); the
previous meeting, when one was named and loaded successfully, is `prev`. -/

/-- XMLStore.create_meeting: header from track defaults and today; when a
source meeting is present, sections are copied field-by-field (including
the id) and only OPEN/INFO items are carried forward, each with a fresh id
and empty notes. -/
def create_meeting (t : Track) (number : String) (newId : String)
    (uItems : Nat → String) (today : String) (prev : Option Meeting) : Meeting :=
  let header : MeetingHeader :=
    { topic := t.name, date := today, start := "09:00", end_ := "10:00",
      location := t.defaults_location, teams_link := t.defaults_teams_link }
  let base : Meeting :=
    { id := newId, number := number, header := header, sections := [],
      items := [], finalized_at := none }
  match prev with
  | none => base
  | some p =>
    { base with
      sections := p.sections.map (fun s =>
        { id := s.id, name := s.name, order := s.order }),
      items := (enumL 0 (p.items.filter
          (fun it => it.status == "OPEN" || it.status == "INFO"))).map
        (fun q =>
          { id := uItems q.1, description := q.2.description,
            status := q.2.status, assignee_id := q.2.assignee_id,
            priority := q.2.priority, due_date := q.2.due_date,
            tags := q.2.tags, order := q.2.order,
            section_name := q.2.section_name, notes := [] }) }

/-! ### Dates and recurrence (store.py lines 14-22, 107-121).  Python dates
are triples of integers; `//` and `%` with the positive divisor 12 are
`Int.ediv` / `Int.emod`. -/

/-- A calendar date as Python's `datetime.date` holds it. -/
structure Date where
  year : Int
  month : Int
  day : Int
deriving DecidableEq, Repr

/-- Gregorian leap-year rule (as `calendar.isleap` / `monthrange` use). -/
def isLeap (y : Int) : Bool :=
  y % 4 == 0 && (y % 100 != 0 || y % 400 == 0)

/-- `calendar.monthrange(y, m)[1]`: number of days in the month. -/
def daysInMonth (y m : Int) : Int :=
  if m = 2 then (if isLeap y then 29 else 28)
  else if m = 4 ∨ m = 6 ∨ m = 9 ∨ m = 11 then 30
  else 31

/-- `_add_months` of store.py: advance by calendar months, clamping the day
to the target month's last valid day. -/
def add_months (d : Date) (months : Int) : Date :=
  let y := d.year + (d.month - 1 + months).ediv 12
  let m := (d.month - 1 + months).emod 12 + 1
  ⟨y, m, min d.day (daysInMonth y m)⟩

/-- Successor day in the calendar (what adding `timedelta(days=1)` does on
a valid date). -/
def next_day (d : Date) : Date :=
  if d.day < daysInMonth d.year d.month then ⟨d.year, d.month, d.day + 1⟩
  else if d.month < 12 then ⟨d.year, d.month + 1, 1⟩
  else ⟨d.year + 1, 1, 1⟩

/-- Predecessor day in the calendar. -/
def prev_day (d : Date) : Date :=
  if 1 < d.day then ⟨d.year, d.month, d.day - 1⟩
  else if 1 < d.month then ⟨d.year, d.month - 1, daysInMonth d.year (d.month - 1)⟩
  else ⟨d.year - 1, 12, 31⟩

/-- `d + timedelta(days=n)` for a possibly negative day count. -/
def add_days (d : Date) (n : Int) : Date :=
  if 0 ≤ n then next_day^[n.toNat] d else prev_day^[(-n).toNat] d

/-- Date validity as `datetime.date(y, m, d)` enforces it. -/
def valid_date (y m d : Int) : Prop :=
  1 ≤ y ∧ y ≤ 9999 ∧ 1 ≤ m ∧ m ≤ 12 ∧ 1 ≤ d ∧ d ≤ daysInMonth y m

instance (y m d : Int) : Decidable (valid_date y m d) := by
  unfold valid_date; infer_instance

/-- Splitting a character list at hyphens (Python `s.split("-")`:
separators are not grouped, the empty string splits to one empty part). -/
def splitDashAux : List Char → List Char → List (List Char)
  | [], cur => [cur.reverse]
  | c :: cs, cur =>
    if c = '-' then cur.reverse :: splitDashAux cs []
    else splitDashAux cs (c :: cur)

/-- Parsing `"Y-M-D"` as create_next_meeting_respecting_recurrence does:
`[int(x) for x in s.split("-")]` unpacked into exactly three values, then
`date(y, mn, d)`; any failure is caught and yields no date. -/
def parseIsoDate (s : String) : Option Date :=
  match splitDashAux s.data [] with
  | [a, b, c] =>
    match parseInt (String.mk a), parseInt (String.mk b), parseInt (String.mk c) with
    | some y, some mo, some d =>
      if valid_date y mo d then some ⟨y, mo, d⟩ else none
    | _, _, _ => none
  | _ => none

/-- Date computation of create_next_meeting_respecting_recurrence: base is
the previous meeting's parsed date (today on absence or parse failure);
monthly advances by `max 1 interval` calendar months, weekly by `interval`
weeks, biweekly by `interval * 2` weeks, any other mode by one week. -/
def next_meeting_date (t : Track) (today : Date) (prev_date : Option String) : Date :=
  let base :=
    match prev_date with
    | none => today
    | some s => (parseIsoDate s).getD today
  if t.recurrence_mode == "monthly" then
    add_months base (max 1 t.recurrence_interval)
  else
    add_days base (7 * (if t.recurrence_mode == "weekly" then t.recurrence_interval
      else if t.recurrence_mode == "biweekly" then t.recurrence_interval * 2
      else 1))

/-! ### load_meeting at the file level (store.py lines 133-139) and
finalize_meeting (lines 123-126).  A meeting file is missing, unparsable,
or a parsed element tree; loading returns not-found, malformed (logged,
returned as None), an uncaught exception, or a meeting. -/

/-- State of a meeting.xml file on disk. -/
inductive FileState where
  | missing
  | unparsable
  | parsed (x : XElem)

/-- Result of XMLStore.load_meeting: `notFound` and `malformed` are the
`None` returns (the latter after logging); `raised` is an uncaught
exception escaping to the caller; `found` carries the decoded meeting. -/
inductive LoadResult where
  | notFound
  | malformed
  | raised
  | found (m : Meeting)

/-- XMLStore.load_meeting on the state of the addressed file. -/
def load_meeting (t : Track) (u : Nat → Nat → Nat → Nat → String)
    (today now : String) : FileState → LoadResult
  | .missing => .notFound
  | .unparsable => .malformed
  | .parsed x =>
    match load_meeting_xml t u today now x with
    | none => .raised
    | some m => .found m

/-- Writing meeting `m` into the store of meeting files (keyed by meeting
number): store.py line 191 derives the destination path from `m.number` —
the number attribute of the Meeting value being saved, NOT the number the
caller addressed — so the file lands under `m.number`. -/
def save_meeting_state (st : String → FileState) (m : Meeting) :
    String → FileState :=
  fun n => if n = m.number then .parsed (save_meeting_xml m) else st n

/-- XMLStore.finalize_meeting: load the addressed number; on None (or an
exception, which also leaves the store untouched) do nothing; otherwise
stamp `finalized_at` with the current second-precision timestamp `nowTs`
and save — under the loaded meeting's own `number`, which save_meeting
uses as the destination. -/
def finalize_meeting (t : Track) (u : Nat → Nat → Nat → Nat → String)
    (today now nowTs : String) (st : String → FileState) (number : String) :
    String → FileState :=
  match load_meeting t u today now (st number) with
  | .found m => save_meeting_state st { m with finalized_at := some nowTs }
  | _ => st

/-! ### Write discipline (store.py lines 44-47, 57-67, 169-192).  A path is
a directory plus file name; the observable file operations of one save call
are listed in order (directory creation, which never touches file contents,
is omitted).  `Path.replace` is atomic; a plain write can be interrupted
mid-file. -/

/-- A file path: containing directory and file name. -/
structure FPath where
  dir : String
  file : String
deriving DecidableEq, Repr

/-- File operations a save performs. -/
inductive FsOp where
  | fwrite (p : FPath) (content : String)
  | rename (src dst : FPath)
deriving DecidableEq, Repr

/-- `Path.with_suffix(".tmp")`: replace the final extension (append when
none). -/
def with_suffix_tmp (p : FPath) : FPath :=
  let r := p.file.data.reverse
  let stem :=
    if r.any (fun c => c = '.') then ((r.dropWhile (fun c => ¬ c = '.')).drop 1).reverse
    else p.file.data
  ⟨p.dir, String.mk (stem ++ ".tmp".data)⟩

/-- save_meeting's writes: serialize to `meeting.tmp` beside the
destination, then atomically replace `meeting.xml`. -/
def save_meeting_ops (dest : FPath) (content : String) : List FsOp :=
  [.fwrite (with_suffix_tmp dest) content, .rename (with_suffix_tmp dest) dest]

/-- save_project's single write: `etree.ElementTree(...).write` directly to
project.xml. -/
def save_project_ops (dest : FPath) (content : String) : List FsOp :=
  [.fwrite dest content]

/-- save_track's single write: directly to track.xml. -/
def save_track_ops (dest : FPath) (content : String) : List FsOp :=
  [.fwrite dest content]

/-- Effect of one completed operation on the file map. -/
def applyOp (fs : FPath → Option String) : FsOp → (FPath → Option String)
  | .fwrite p c => fun q => if q = p then some c else fs q
  | .rename s d => fun q => if q = d then fs s else if q = s then none else fs q

/-- States reachable when an operation sequence is interrupted: stop before
any remaining operation, stop mid-way through a plain write leaving
arbitrary partial content at its target, or complete an operation and
continue.  A rename has no mid-way state (atomic replacement). -/
inductive interrupted :
    (FPath → Option String) → List FsOp → (FPath → Option String) → Prop where
  | stop (fs : FPath → Option String) (ops : List FsOp) : interrupted fs ops fs
  | midWrite (fs : FPath → Option String) (p : FPath) (c junk : String)
      (ops : List FsOp) :
      interrupted fs (.fwrite p c :: ops) (fun q => if q = p then some junk else fs q)
  | step (fs : FPath → Option String) (op : FsOp) (ops : List FsOp)
      (fs' : FPath → Option String) :
      interrupted (applyOp fs op) ops fs' → interrupted fs (op :: ops) fs'

/-- The write pattern the specification claims of every store write: a
temporary file in the destination's directory is written, then atomically
renamed onto the destination. -/
def atomic_write_pattern (ops : List FsOp) (dest : FPath) : Prop :=
  ∃ tmp content, tmp.dir = dest.dir ∧ tmp ≠ dest ∧
    ops = [.fwrite tmp content, .rename tmp dest]

/-! ### Claim C4 -/

theorem uparseNatAux_some_of_digits :
    ∀ (l : List Char) (acc : Nat), (∀ c ∈ l, udigitVal? c ≠ none) →
      ∃ n, uparseNatAux l acc = some n := by
  intro l
  induction l with
  | nil => intro acc _; exact ⟨acc, rfl⟩
  | cons c cs ih =>
    intro acc hall
    have hc := hall c (by simp)
    cases hd : udigitVal? c with
    | none => exact absurd hd hc
    | some d =>
      obtain ⟨n, hn⟩ := ih (acc * 10 + d) (fun x hx => hall x (by simp [hx]))
      exact ⟨n, by simp [uparseNatAux, hd, hn]⟩

theorem uparseNat_some_of_digits (s : String) (h : is_digits s = true) :
    ∃ n, uparseNat s.data = some n := by
  unfold is_digits at h
  rw [Bool.and_eq_true] at h
  obtain ⟨hne, hall⟩ := h
  rw [List.all_eq_true] at hall
  have hdig : ∀ c ∈ s.data, udigitVal? c ≠ none := by
    intro c hc
    have := hall c hc
    rw [Option.isSome_iff_exists] at this
    obtain ⟨b, hb⟩ := this
    simp [udigitVal?, hb]
  obtain ⟨n, hn⟩ := uparseNatAux_some_of_digits s.data 0 hdig
  refine ⟨n, ?_⟩
  unfold uparseNat
  rw [if_neg (by simpa using hne), hn]

theorem foldl_max_filterMap (entries : List (String × Bool)) :
    ∀ acc : Nat,
      entries.foldl (fun maxn e =>
        if e.2 && is_digits e.1 then max maxn ((uparseNat e.1.data).getD 0) else maxn) acc =
      (entries.filterMap (fun e =>
        if e.2 && is_digits e.1 then uparseNat e.1.data else none)).foldl max acc := by
  induction entries with
  | nil => intro acc; rfl
  | cons e l ih =>
    intro acc
    by_cases h : (e.2 && is_digits e.1) = true
    · obtain ⟨n, hn⟩ := uparseNat_some_of_digits e.1 (Bool.and_eq_true .. ▸ h).2
      simp only [List.foldl_cons, List.filterMap_cons, h, if_true, hn]
      simp only [Option.getD_some]
      exact ih (max acc n)
    · simp only [List.foldl_cons, List.filterMap_cons, h]
      simp only [Bool.not_eq_true] at h
      simp only [h, Bool.false_eq_true, if_false]
      exact ih acc

/-- Claim C4: next_meeting_number returns the maximum all-digit directory
name plus one, zero-padded to 4 digits, ignoring non-numeric names and
non-directories; {0001, 0003, 0007} yields "0008" (also in the presence of
non-numeric entries and of a numeric plain file), a track with no numeric
meeting directory yields "0001", and a directory named with the
Arabic-Indic digit three (which `int()` reads as 3) yields "0004". -/
theorem c4_next_meeting_number :
    (∀ entries : List (String × Bool),
      next_meeting_number entries = format04 (max_numeric entries + 1)) ∧
    next_meeting_number [("0001", true), ("0003", true), ("0007", true)] = "0008" ∧
    next_meeting_number [("0007", true), ("attachments", true), ("0009", false),
      ("12ab", true), ("0001", true)] = "0008" ∧
    next_meeting_number [("exports", true)] = "0001" ∧
    next_meeting_number [] = "0001" ∧
    next_meeting_number [(String.mk [Char.ofNat 0x663], true)] = "0004" := by
  refine ⟨fun entries => ?_, by decide, by decide, by decide, by decide, by decide⟩
  unfold next_meeting_number max_numeric
  rw [foldl_max_filterMap]

/-! ### Concrete fixtures for witnesses and counterexamples -/

/-- A plain track with nonempty defaults. -/
def track0 : Track :=
  { id := "t1", name := "Sync", slug := "sync", defaults_location := "Room A",
    defaults_teams_link := "teams-link", roster := [], section_templates := [],
    recurrence_mode := "weekly", recurrence_interval := 1 }

/-- A concrete fresh-identifier supply. -/
def u0 : Nat → Nat → Nat → Nat → String := fun _ _ _ _ => "fresh"

/-- A concrete per-item fresh-identifier supply. -/
def uI0 : Nat → String := fun _ => "fresh-item"

/-! ### Claims C6 and C2: create_meeting copying -/

/-- Fixture source meeting: one section, and one item per status
OPEN / INFO / CLOSED. -/
def mSrc : Meeting :=
  { id := "m1", number := "0001",
    header := { topic := "Sync", date := "2024-01-01", start := "09:00",
                end_ := "10:00", location := "Room A", teams_link := "teams-link" },
    sections := [{ id := "s1", name := "Topics", order := 0 }],
    items :=
      [{ id := "i1", description := "open item", status := "OPEN",
         assignee_id := some "alice", priority := "High", due_date := some "2024-02-01",
         tags := ["a"], order := 0, section_name := "Topics",
         notes := [{ id := "n1", text := "note", meeting_date := "2024-01-01",
                     created_at := "2024-01-01T09:30:00", is_addendum := false }] },
       { id := "i2", description := "info item", status := "INFO",
         assignee_id := none, priority := "Normal", due_date := none,
         tags := [], order := 1, section_name := "Topics", notes := [] },
       { id := "i3", description := "closed item", status := "CLOSED",
         assignee_id := none, priority := "Low", due_date := none,
         tags := [], order := 2, section_name := "Topics", notes := [] }],
    finalized_at := none }

/-- Claim C6 (amended): create_meeting with a copy source clones each of
the source's Sections preserving id, name and order — the clone list equals
the source's section list (in particular the id is NOT fresh). -/
theorem c6_sections_cloned (t : Track) (number newId : String)
    (uItems : Nat → String) (today : String) (p : Meeting) :
    (create_meeting t number newId uItems today (some p)).sections = p.sections := by
  show p.sections.map (fun s => { id := s.id, name := s.name, order := s.order }) =
    p.sections
  have : (fun s : Section => ({ id := s.id, name := s.name, order := s.order } : Section)) =
      fun s => s := rfl
  rw [this, List.map_id']

/-- Claim C6 counterexample: on a concrete source whose section has id
"s1", the clone's id is again "s1" — refuting "a new identity (a fresh
id)". -/
theorem c6_counterexample :
    ¬ (∀ s' ∈ (create_meeting track0 "0002" "m2" uI0 "2024-01-08" (some mSrc)).sections,
        ∀ s ∈ mSrc.sections, s'.id ≠ s.id) := by
  decide

theorem enumL_length (l : List α) : ∀ i0, (enumL i0 l).length = l.length := by
  induction l with
  | nil => intro i0; rfl
  | cons a l ih => intro i0; simp [enumL, ih (i0 + 1)]

/-- Claim C2: create_meeting with a copy source produces a meeting whose
items are exactly the source's OPEN and INFO items in order — description,
status, assignee, priority, due date, tags, order and section_name
preserved, id fresh from the supply, notes empty — with the same count as
the source's OPEN/INFO items and zero CLOSED items. -/
theorem c2_carry_forward (t : Track) (number newId : String)
    (uItems : Nat → String) (today : String) (src : Meeting) :
    ((create_meeting t number newId uItems today (some src)).items =
      (enumL 0 (src.items.filter
          (fun it => it.status == "OPEN" || it.status == "INFO"))).map
        (fun q =>
          { id := uItems q.1, description := q.2.description, status := q.2.status,
            assignee_id := q.2.assignee_id, priority := q.2.priority,
            due_date := q.2.due_date, tags := q.2.tags, order := q.2.order,
            section_name := q.2.section_name, notes := ([] : List Note) })) ∧
    (create_meeting t number newId uItems today (some src)).items.length =
      (src.items.filter
        (fun it => it.status == "OPEN" || it.status == "INFO")).length ∧
    ((create_meeting t number newId uItems today (some src)).items.filter
      (fun it => it.status == "CLOSED")).length = 0 ∧
    (∀ it' ∈ (create_meeting t number newId uItems today (some src)).items,
      it'.notes = []) ∧
    ((∀ k, ∀ it0 ∈ src.items, uItems k ≠ it0.id) →
      ∀ it' ∈ (create_meeting t number newId uItems today (some src)).items,
        ∀ it0 ∈ src.items, it'.id ≠ it0.id) := by
  have hmem : ∀ it' ∈ (create_meeting t number newId uItems today (some src)).items,
      ∃ q : Nat × Item,
        q ∈ enumL 0 (src.items.filter
          (fun it => it.status == "OPEN" || it.status == "INFO")) ∧
        it'.id = uItems q.1 ∧ it'.status = q.2.status ∧ it'.notes = [] := by
    intro it' hit'
    simp only [create_meeting, List.mem_map] at hit'
    obtain ⟨q, hq, rfl⟩ := hit'
    exact ⟨q, hq, rfl, rfl, rfl⟩
  refine ⟨rfl, ?_, ?_, ?_, ?_⟩
  · show ((enumL 0 _).map _).length = _
    rw [List.length_map, enumL_length]
  · rw [List.length_eq_zero]
    rw [List.filter_eq_nil_iff]
    intro it' hit'
    obtain ⟨q, hq, _, hst, _⟩ := hmem it' hit'
    have hq2 := enumL_mem_snd _ 0 q hq
    have := (List.mem_filter.mp hq2).2
    rw [hst]
    intro hcon
    rw [of_decide_eq_true hcon] at this
    simp at this
  · intro it' hit'
    obtain ⟨q, _, _, _, hn⟩ := hmem it' hit'
    exact hn
  · intro hfresh it' hit' it0 hit0
    obtain ⟨q, _, hid, _, _⟩ := hmem it' hit'
    rw [hid]
    exact hfresh q.1 it0 hit0

/-- Claim C2 witness: on the concrete three-status source, the new meeting
has exactly 2 items (the OPEN and the INFO one), no CLOSED item, empty
notes, and ids disjoint from the source's. -/
theorem c2_carry_forward_witness :
    (create_meeting track0 "0002" "m2" uI0 "2024-01-08" (some mSrc)).items.length = 2 ∧
    ((create_meeting track0 "0002" "m2" uI0 "2024-01-08" (some mSrc)).items.filter
      (fun it => it.status == "CLOSED")).length = 0 ∧
    (∀ it' ∈ (create_meeting track0 "0002" "m2" uI0 "2024-01-08" (some mSrc)).items,
      ∀ it0 ∈ mSrc.items, it'.id ≠ it0.id) := by
  have h := c2_carry_forward track0 "0002" "m2" uI0 "2024-01-08" mSrc
  refine ⟨by rw [h.2.1]; decide, h.2.2.1, h.2.2.2.2 ?_⟩
  intro k
  show ∀ it0 ∈ mSrc.items, "fresh-item" ≠ it0.id
  decide

/-! ### Claim C3: recurrence date advance -/

/-- Monthly track with interval 1. -/
def trackMonthly : Track :=
  { id := "t2", name := "Board", slug := "board", defaults_location := "",
    defaults_teams_link := "", roster := [], section_templates := [],
    recurrence_mode := "monthly", recurrence_interval := 1 }

/-- Weekly track with interval 2. -/
def trackWeekly2 : Track :=
  { id := "t3", name := "Standup", slug := "standup", defaults_location := "",
    defaults_teams_link := "", roster := [], section_templates := [],
    recurrence_mode := "weekly", recurrence_interval := 2 }

/-- Claim C3: create_next_meeting_respecting_recurrence advances the
previous meeting's date (today's when there is none) by: `max 1 interval`
calendar months for mode "monthly" with the day clamped to the target
month's length (2024-01-31 + 1 month = 2024-02-29); `interval` weeks for
"weekly"; `interval * 2` weeks for "biweekly"; exactly one week for any
other mode. -/
theorem c3_recurrence_advance :
    (∀ (t : Track) (today : Date) (s : String) (d : Date),
      t.recurrence_mode = "monthly" → parseIsoDate s = some d →
      next_meeting_date t today (some s) = add_months d (max 1 t.recurrence_interval)) ∧
    (∀ (t : Track) (today : Date), t.recurrence_mode = "monthly" →
      next_meeting_date t today none = add_months today (max 1 t.recurrence_interval)) ∧
    (∀ (t : Track) (today : Date) (s : String) (d : Date),
      t.recurrence_mode = "weekly" → parseIsoDate s = some d →
      next_meeting_date t today (some s) = add_days d (7 * t.recurrence_interval)) ∧
    (∀ (t : Track) (today : Date) (s : String) (d : Date),
      t.recurrence_mode = "biweekly" → parseIsoDate s = some d →
      next_meeting_date t today (some s) = add_days d (7 * (t.recurrence_interval * 2))) ∧
    (∀ (t : Track) (today : Date) (s : String) (d : Date),
      t.recurrence_mode ≠ "monthly" → t.recurrence_mode ≠ "weekly" →
      t.recurrence_mode ≠ "biweekly" → parseIsoDate s = some d →
      next_meeting_date t today (some s) = add_days d 7) ∧
    (∀ (t : Track) (today : Date), t.recurrence_mode ≠ "monthly" →
      t.recurrence_mode ≠ "weekly" → t.recurrence_mode ≠ "biweekly" →
      next_meeting_date t today none = add_days today 7) ∧
    (∀ (d : Date) (months : Int), (add_months d months).day =
      min d.day (daysInMonth (add_months d months).year (add_months d months).month)) ∧
    (∀ today : Date,
      next_meeting_date trackMonthly today (some "2024-01-31") = ⟨2024, 2, 29⟩) := by
  refine ⟨?_, ?_, ?_, ?_, ?_, ?_, ?_, ?_⟩
  · intro t today s d h1 h2
    simp [next_meeting_date, h1, h2]
  · intro t today h1
    simp [next_meeting_date, h1]
  · intro t today s d h1 h2
    simp [next_meeting_date, h1, h2]
  · intro t today s d h1 h2
    simp [next_meeting_date, h1, h2]
  · intro t today s d h1 h2 h3 h4
    simp [next_meeting_date, h1, h2, h3, h4]
  · intro t today h1 h2 h3
    simp [next_meeting_date, h1, h2, h3]
  · intro d months
    rfl
  · intro today
    have hp : parseIsoDate "2024-01-31" = some ⟨2024, 1, 31⟩ := by decide
    simp [next_meeting_date, hp, trackMonthly]
    decide

/-- Claim C3 witness: concrete checks — monthly interval 1 advances
2024-01-31 to 2024-02-29 (leap-year day clamping), and weekly interval 2
advances 2024-03-04 to 2024-03-18. -/
theorem c3_recurrence_advance_witness :
    next_meeting_date trackMonthly ⟨2024, 5, 1⟩ (some "2024-01-31") =
      add_months ⟨2024, 1, 31⟩ (max 1 1) ∧
    add_months ⟨2024, 1, 31⟩ (max 1 1) = ⟨2024, 2, 29⟩ ∧
    next_meeting_date trackWeekly2 ⟨2024, 5, 1⟩ (some "2024-03-04") =
      add_days ⟨2024, 3, 4⟩ (7 * 2) ∧
    add_days ⟨2024, 3, 4⟩ (7 * 2) = ⟨2024, 3, 18⟩ :=
  ⟨c3_recurrence_advance.1 trackMonthly ⟨2024, 5, 1⟩ "2024-01-31" ⟨2024, 1, 31⟩
      rfl (by decide),
   by decide,
   c3_recurrence_advance.2.2.1 trackWeekly2 ⟨2024, 5, 1⟩ "2024-03-04" ⟨2024, 3, 4⟩
      rfl (by decide),
   by decide⟩

/-! ### Claim C9: slugify -/

theorem collapseRuns_allowed :
    ∀ (l : List Char) (b : Bool), ∀ c ∈ collapseRuns b l, allowedChar c = true := by
  intro l
  induction l with
  | nil => intro b c hc; simp [collapseRuns] at hc
  | cons a l ih =>
    intro b c hc
    unfold collapseRuns at hc
    by_cases ha : allowedChar a = true
    · rw [if_pos ha] at hc
      rcases List.mem_cons.mp hc with rfl | h2
      · exact ha
      · exact ih false c h2
    · rw [if_neg ha] at hc
      cases b with
      | true => exact ih true c (by simpa using hc)
      | false =>
        rcases List.mem_cons.mp (by simpa using hc) with rfl | h2
        · decide
        · exact ih true c h2

theorem mem_dropWhile_imp (p : α → Bool) :
    ∀ l : List α, ∀ c ∈ l.dropWhile p, c ∈ l := by
  intro l
  induction l with
  | nil => intro c hc; simp [List.dropWhile] at hc
  | cons a l ih =>
    intro c hc
    rw [List.dropWhile_cons] at hc
    by_cases hp : p a = true
    · rw [if_pos hp] at hc
      exact List.mem_cons_of_mem a (ih c hc)
    · rw [if_neg hp] at hc
      exact hc

theorem head?_dropWhile (p : α → Bool) :
    ∀ (l : List α) (c : α), (l.dropWhile p).head? = some c → p c = false := by
  intro l
  induction l with
  | nil => intro c h; simp [List.dropWhile] at h
  | cons a l ih =>
    intro c h
    rw [List.dropWhile_cons] at h
    by_cases hp : p a = true
    · rw [if_pos hp] at h
      exact ih c h
    · rw [if_neg hp] at h
      simp only [List.head?_cons, Option.some.injEq] at h
      subst h
      simpa using hp

theorem getLast?_dropWhile (p : α → Bool) :
    ∀ l : List α, l.dropWhile p ≠ [] → (l.dropWhile p).getLast? = l.getLast? := by
  intro l
  induction l with
  | nil => intro h; exact absurd rfl h
  | cons a l ih =>
    intro h
    rw [List.dropWhile_cons] at h ⊢
    by_cases hp : p a = true
    · rw [if_pos hp] at h ⊢
      have hlne : l ≠ [] := by
        intro hcon
        rw [hcon] at h
        simp [List.dropWhile] at h
      rw [ih h]
      obtain ⟨b, l', rfl⟩ := List.exists_cons_of_ne_nil hlne
      rw [List.getLast?_cons_cons]
    · rw [if_neg hp]

theorem slugify_core_chars (name : String) :
    ∀ c ∈ (slugify_core name).data, allowedChar c = true := by
  intro c hc
  have hc' : c ∈ stripHyphens (collapseRuns false
      (((pyStrip name.data).flatMap pyLowerChar).map
        (fun c => if c = ' ' then '-' else c))) := hc
  unfold stripHyphens at hc'
  have h1 := List.mem_reverse.mp hc'
  have h2 := mem_dropWhile_imp _ _ c h1
  have h3 := List.mem_reverse.mp h2
  have h4 := mem_dropWhile_imp _ _ c h3
  exact collapseRuns_allowed _ false c h4

theorem stripHyphens_no_boundary (l : List Char) (c : Char) :
    ((stripHyphens l).head? = some c → c ≠ '-') ∧
    ((stripHyphens l).getLast? = some c → c ≠ '-') := by
  unfold stripHyphens
  constructor
  · intro h
    rw [List.head?_reverse] at h
    have hne : (l.dropWhile (fun c => c == '-')).reverse.dropWhile
        (fun c => c == '-') ≠ [] := by
      intro hcon
      rw [hcon] at h
      simp at h
    rw [getLast?_dropWhile _ _ hne, List.getLast?_reverse] at h
    have := head?_dropWhile _ _ c h
    simpa using this
  · intro h
    rw [List.getLast?_reverse] at h
    have := head?_dropWhile _ _ c h
    simpa using this

theorem slugify_core_no_boundary_hyphen (name : String) (c : Char) :
    ((slugify_core name).data.head? = some c → c ≠ '-') ∧
    ((slugify_core name).data.getLast? = some c → c ≠ '-') :=
  stripHyphens_no_boundary _ c

/-- Claim C9: slugify is the pipeline "strip, lowercase, spaces to
hyphens, collapse runs outside [a-z0-9-] to single hyphens, strip outer
hyphens"; when the core result is nonempty slugify returns it and is
deterministic (independent of the random token); when it is empty slugify
returns the nonempty fallback "obj-" ++ token; the result's characters all
lie in [a-z0-9-] with no hyphen at either end.  Concrete checks include
the Unicode lowercase mappings that land in the kept class: the Kelvin
sign slugifies to "k" and "İstanbul" to "i-stanbul". -/
theorem c9_slugify :
    (∀ name : String, slugify_core name = String.mk (stripHyphens (collapseRuns false
      (((pyStrip name.data).flatMap pyLowerChar).map
        (fun c => if c = ' ' then '-' else c))))) ∧
    (∀ name t1 t2 : String, slugify_core name ≠ "" →
      slugify name t1 = slugify_core name ∧ slugify name t1 = slugify name t2) ∧
    (∀ name token : String, slugify_core name = "" →
      slugify name token = "obj-" ++ token) ∧
    (∀ token : String, ("obj-" ++ token : String) ≠ "") ∧
    (∀ name : String, ∀ c ∈ (slugify_core name).data, allowedChar c = true) ∧
    (∀ (name : String) (c : Char),
      ((slugify_core name).data.head? = some c → c ≠ '-') ∧
      ((slugify_core name).data.getLast? = some c → c ≠ '-')) ∧
    slugify "  Weekly Sync " "tok" = "weekly-sync" ∧
    slugify "x@@y" "tok" = "x-y" ∧
    slugify (String.mk [Char.ofNat 0x212A]) "tok" = "k" ∧
    slugify "İstanbul" "tok" = "i-stanbul" ∧
    slugify "!!!" "abc123" = "obj-abc123" := by
  refine ⟨fun name => rfl, ?_, ?_, ?_, slugify_core_chars,
    slugify_core_no_boundary_hyphen, by decide, by decide, by decide, by decide,
    by decide⟩
  · intro name t1 t2 h
    unfold slugify
    rw [if_neg h, if_neg h]
    exact ⟨rfl, rfl⟩
  · intro name token h
    unfold slugify
    rw [if_pos h]
  · intro token hcon
    have hlen := congrArg String.length hcon
    rw [String.length_append] at hlen
    have h4 : ("obj-" : String).length = 4 := rfl
    have h0 : ("" : String).length = 0 := rfl
    rw [h4, h0] at hlen
    omega

/-- Claim C9 witness: the determinism and fallback branches applied at
concrete names. -/
theorem c9_slugify_witness :
    (slugify "  Weekly Sync " "t1" = slugify_core "  Weekly Sync " ∧
      slugify "  Weekly Sync " "t1" = slugify "  Weekly Sync " "t2") ∧
    slugify "!!!" "abc123" = "obj-" ++ "abc123" :=
  ⟨c9_slugify.2.1 "  Weekly Sync " "t1" "t2" (by decide),
   c9_slugify.2.2.1 "!!!" "abc123" (by decide)⟩

/-! ### Claim C5: write discipline -/

/-- A file map holding old content at project.xml. -/
def fsProj : FPath → Option String :=
  fun p => if p = ⟨"proj", "project.xml"⟩ then some "old" else none

/-- Claim C5 counterexample: save_project writes its destination directly
(a single fwrite, not the tmp-then-rename pattern), and an interrupted
save_project can leave project.xml holding garbage that is neither the old
nor the new content. -/
theorem c5_counterexample :
    ¬ atomic_write_pattern (save_project_ops ⟨"proj", "project.xml"⟩ "new")
        ⟨"proj", "project.xml"⟩ ∧
    interrupted fsProj (save_project_ops ⟨"proj", "project.xml"⟩ "new")
      (fun q => if q = ⟨"proj", "project.xml"⟩ then some "garbage" else fsProj q) ∧
    (fun q => if q = ⟨"proj", "project.xml"⟩ then some "garbage" else fsProj q)
      ⟨"proj", "project.xml"⟩ = some "garbage" ∧
    fsProj ⟨"proj", "project.xml"⟩ = some "old" := by
  refine ⟨?_, ?_, rfl, rfl⟩
  · rintro ⟨tmp, content, _, _, heq⟩
    simp [save_project_ops] at heq
  · exact interrupted.midWrite fsProj ⟨"proj", "project.xml"⟩ "new" "garbage" []

/-- Claim C5 (amended): save_meeting alone follows the atomic pattern — it
writes meeting.tmp in the destination's directory and then atomically
replaces meeting.xml, so every state reachable by interrupting it has the
destination holding either the old or the complete new content, and no
file other than the destination and its temporary is touched at all; a
completed save_meeting leaves exactly the new content at the destination;
save_project and save_track each perform a single direct write to their
destination (see the counterexample for the resulting corruption). -/
theorem c5_save_meeting_atomic (ddir content : String)
    (fs fs' : FPath → Option String)
    (h : interrupted fs (save_meeting_ops ⟨ddir, "meeting.xml"⟩ content) fs') :
    atomic_write_pattern (save_meeting_ops ⟨ddir, "meeting.xml"⟩ content)
      ⟨ddir, "meeting.xml"⟩ ∧
    (fs' ⟨ddir, "meeting.xml"⟩ = fs ⟨ddir, "meeting.xml"⟩ ∨
      fs' ⟨ddir, "meeting.xml"⟩ = some content) ∧
    (∀ p : FPath, p ≠ ⟨ddir, "meeting.tmp"⟩ → p ≠ ⟨ddir, "meeting.xml"⟩ →
      fs' p = fs p) ∧
    ((save_meeting_ops ⟨ddir, "meeting.xml"⟩ content).foldl applyOp fs)
      ⟨ddir, "meeting.xml"⟩ = some content ∧
    (∀ (dp : FPath) (c : String), save_project_ops dp c = [.fwrite dp c]) ∧
    (∀ (dp : FPath) (c : String), save_track_ops dp c = [.fwrite dp c]) := by
  have htmp : with_suffix_tmp ⟨ddir, "meeting.xml"⟩ = ⟨ddir, "meeting.tmp"⟩ := rfl
  have hne : (⟨ddir, "meeting.tmp"⟩ : FPath) ≠ ⟨ddir, "meeting.xml"⟩ := by
    intro hcon
    have := congrArg FPath.file hcon
    simp at this
  have hops : save_meeting_ops ⟨ddir, "meeting.xml"⟩ content =
      [.fwrite ⟨ddir, "meeting.tmp"⟩ content,
       .rename ⟨ddir, "meeting.tmp"⟩ ⟨ddir, "meeting.xml"⟩] := by
    rw [save_meeting_ops, htmp]
  have hcomplete : ((save_meeting_ops ⟨ddir, "meeting.xml"⟩ content).foldl
      applyOp fs) ⟨ddir, "meeting.xml"⟩ = some content := by
    rw [hops]
    simp [applyOp]
  refine ⟨⟨⟨ddir, "meeting.tmp"⟩, content, rfl, hne, hops⟩, ?_, ?_, hcomplete,
    fun dp c => rfl, fun dp c => rfl⟩
  · rw [hops] at h
    cases h with
    | stop => exact Or.inl rfl
    | midWrite _ _ _ junk _ =>
      left
      simp [if_neg (Ne.symm hne)]
    | step _ _ _ _ h2 =>
      cases h2 with
      | stop =>
        left
        simp [applyOp, if_neg (Ne.symm hne)]
      | step _ _ _ _ h3 =>
        cases h3 with
        | stop =>
          right
          simp [applyOp]
  · rw [hops] at h
    intro p hp1 hp2
    cases h with
    | stop => rfl
    | midWrite _ _ _ junk _ => simp [if_neg hp1]
    | step _ _ _ _ h2 =>
      cases h2 with
      | stop => simp [applyOp, if_neg hp1]
      | step _ _ _ _ h3 =>
        cases h3 with
        | stop => simp [applyOp, if_neg hp1, if_neg hp2]

/-- File map with nothing saved yet (for the witness run). -/
def fs0 : FPath → Option String := fun _ => none

/-- State reached when the witness run is interrupted mid-way through the
temporary-file write, leaving garbage in meeting.tmp. -/
def fs1 : FPath → Option String :=
  fun q => if q = ⟨"mdir", "meeting.tmp"⟩ then some "junk" else fs0 q

/-- Claim C5 witness: the amended theorem applied to a concrete run
interrupted inside the write of meeting.tmp — the destination is untouched
and unrelated files are untouched. -/
theorem c5_save_meeting_atomic_witness :
    atomic_write_pattern (save_meeting_ops ⟨"mdir", "meeting.xml"⟩ "content")
      ⟨"mdir", "meeting.xml"⟩ ∧
    (fs1 ⟨"mdir", "meeting.xml"⟩ = fs0 ⟨"mdir", "meeting.xml"⟩ ∨
      fs1 ⟨"mdir", "meeting.xml"⟩ = some "content") ∧
    fs1 ⟨"other", "track.xml"⟩ = fs0 ⟨"other", "track.xml"⟩ :=
  let h := c5_save_meeting_atomic "mdir" "content" fs0 fs1
    (interrupted.midWrite fs0 ⟨"mdir", "meeting.tmp"⟩ "content" "junk"
      [.rename ⟨"mdir", "meeting.tmp"⟩ ⟨"mdir", "meeting.xml"⟩])
  ⟨h.1, h.2.1, h.2.2.1 ⟨"other", "track.xml"⟩ (by decide) (by decide)⟩

/-! ### Claim C7: load_meeting error handling -/

/-- A parseable meeting.xml whose Section carries the non-numeric order
attribute "x": `int("x")` raises ValueError in load_meeting. -/
def badOrderXml : XElem :=
  .mk "Meeting" [] none
    [.mk "Agenda" [] none [.mk "Section" [("order", "x")] none []]]

/-- Claim C7 (amended): load_meeting returns None for a missing file and
for unparsable XML (the malformed case, which is logged), and any tree
save_meeting wrote always decodes; but not every parseable file content is
safe (see the counterexample). -/
theorem c7_load_meeting_none (t : Track) (u : Nat → Nat → Nat → Nat → String)
    (today now : String) :
    load_meeting t u today now .missing = .notFound ∧
    load_meeting t u today now .unparsable = .malformed ∧
    (∀ m : Meeting, load_meeting t u today now (.parsed (save_meeting_xml m)) =
      .found (normalize_meeting t u today now m)) := by
  refine ⟨rfl, rfl, fun m => ?_⟩
  show (match load_meeting_xml t u today now (save_meeting_xml m) with
    | none => LoadResult.raised
    | some m' => LoadResult.found m') = _
  rw [decode_encode_meeting]

/-- Claim C7 counterexample: a parseable meeting.xml with Section
order="x" makes load_meeting raise ValueError (from `int("x")`) to its
caller instead of returning None — refuting "never raises an exception for
any file content". -/
theorem c7_counterexample :
    load_meeting track0 u0 "2024-01-02" "12:00:00" (.parsed badOrderXml) =
      .raised := rfl

/-! ### Claim C8: finalize_meeting -/

/-- Claim C8 (amended): when the addressed meeting loads AND the number
attribute stored in its file equals the addressed number (always the case
for files the store itself created), finalize_meeting stamps
`finalized_at` with the current second-precision timestamp (a nonempty
string) and persists, so a subsequent load of that number yields a meeting
whose `finalized_at` is exactly that stamp; when no such meeting exists
(the file is missing, or unparsable), finalize_meeting leaves the entire
store untouched.  Without the number-match condition save_meeting writes
under the file's own number attribute, leaving the addressed meeting
unstamped (see the counterexample). -/
theorem c8_finalize (t : Track) (u : Nat → Nat → Nat → Nat → String)
    (today now nowTs : String) (st : String → FileState) (number : String) :
    (∀ m : Meeting, load_meeting t u today now (st number) = .found m →
      m.number = number →
      nowTs ≠ "" →
      load_meeting t u today now
          ((finalize_meeting t u today now nowTs st number) number) =
        .found (normalize_meeting t u today now
          { m with finalized_at := some nowTs }) ∧
      (normalize_meeting t u today now
          { m with finalized_at := some nowTs }).finalized_at = some nowTs) ∧
    (st number = .missing → finalize_meeting t u today now nowTs st number = st) ∧
    (st number = .unparsable → finalize_meeting t u today now nowTs st number = st) := by
  refine ⟨?_, ?_, ?_⟩
  · intro m hm hnum hts
    constructor
    · unfold finalize_meeting
      rw [hm]
      show load_meeting t u today now
        (save_meeting_state st { m with finalized_at := some nowTs } number) = _
      unfold save_meeting_state
      rw [if_pos (by exact hnum.symm)]
      show (match load_meeting_xml t u today now
          (save_meeting_xml { m with finalized_at := some nowTs }) with
        | none => LoadResult.raised
        | some m' => LoadResult.found m') = _
      rw [decode_encode_meeting]
    · simp [normalize_meeting, hts]
  · intro hmiss
    unfold finalize_meeting
    rw [hmiss]
    rfl
  · intro hmal
    unfold finalize_meeting
    rw [hmal]
    rfl

/-- Projection used to state counterexamples about load results: the
loaded meeting's `finalized_at`, or `none` when nothing loads. -/
def loaded_finalized_at : LoadResult → Option (Option String)
  | .found m => some m.finalized_at
  | _ => none

/-- Fixture meeting whose stored number attribute, "0007", differs from
the directory "0005" its file sits in (such stores arise from hand-moved
or hand-edited files; load_meeting itself never checks the two agree). -/
def mMis : Meeting :=
  { id := "m-mis", number := "0007",
    header := { topic := "T", date := "2024-01-07", start := "09:00",
                end_ := "10:00", location := "Room A", teams_link := "teams-link" },
    sections := [], items := [], finalized_at := none }

/-- Fixture store: directory 0005 holds the file whose number attribute is
0007; everything else is missing. -/
def stMis : String → FileState :=
  fun n => if n = "0005" then .parsed (save_meeting_xml mMis) else .missing

/-- Claim C8 counterexample: meeting 0005 exists (it loads, unfinalized);
finalize_meeting on 0005 runs, but because save_meeting writes under the
file's own number attribute 0007, a subsequent load of 0005 still has
`finalized_at` unset — the stamp landed under 0007 instead.  This refutes
"a subsequent load_meeting returns a meeting with non-empty finalized_at"
as quantified over every store. -/
theorem c8_counterexample :
    loaded_finalized_at (load_meeting track0 u0 "2024-01-08" "12:00:00"
      (stMis "0005")) = some none ∧
    loaded_finalized_at (load_meeting track0 u0 "2024-01-08" "12:00:00"
      ((finalize_meeting track0 u0 "2024-01-08" "12:00:00" "2024-01-08T10:00:00"
        stMis "0005") "0005")) = some none ∧
    loaded_finalized_at (load_meeting track0 u0 "2024-01-08" "12:00:00"
      ((finalize_meeting track0 u0 "2024-01-08" "12:00:00" "2024-01-08T10:00:00"
        stMis "0005") "0007")) = some (some "2024-01-08T10:00:00") := by
  decide

/-- Fixture store: meeting 0001 on disk is the serialized mSrc; everything
else is missing. -/
def stFix : String → FileState :=
  fun n => if n = "0001" then .parsed (save_meeting_xml mSrc) else .missing

/-- Claim C8 witness: finalizing the concrete meeting 0001 yields a store
whose meeting 0001 loads with `finalized_at = some "2024-01-08T10:00:00"`;
finalizing a number with no meeting file changes nothing. -/
theorem c8_finalize_witness :
    load_meeting track0 u0 "2024-01-08" "12:00:00"
        ((finalize_meeting track0 u0 "2024-01-08" "12:00:00" "2024-01-08T10:00:00"
          stFix "0001") "0001") =
      .found (normalize_meeting track0 u0 "2024-01-08" "12:00:00"
        { (normalize_meeting track0 u0 "2024-01-08" "12:00:00" mSrc) with
          finalized_at := some "2024-01-08T10:00:00" }) ∧
    (normalize_meeting track0 u0 "2024-01-08" "12:00:00"
        { (normalize_meeting track0 u0 "2024-01-08" "12:00:00" mSrc) with
          finalized_at := some "2024-01-08T10:00:00" }).finalized_at =
      some "2024-01-08T10:00:00" ∧
    finalize_meeting track0 u0 "2024-01-08" "12:00:00" "2024-01-08T10:00:00"
      stFix "0002" = stFix := by
  have h := (c8_finalize track0 u0 "2024-01-08" "12:00:00" "2024-01-08T10:00:00"
      stFix "0001").1
    (normalize_meeting track0 u0 "2024-01-08" "12:00:00" mSrc)
    (by show (match load_meeting_xml track0 u0 "2024-01-08" "12:00:00"
            (save_meeting_xml mSrc) with
          | none => LoadResult.raised
          | some m' => LoadResult.found m') = _
        rw [decode_encode_meeting])
    (by decide)
    (by decide)
  refine ⟨h.1, h.2, ?_⟩
  exact (c8_finalize track0 u0 "2024-01-08" "12:00:00" "2024-01-08T10:00:00"
    stFix "0002").2.1 rfl

/-! ### Claim C10: orphan items are dropped by save_meeting -/

theorem length_insKeyed (key : α → Int) (x : α) :
    ∀ l : List α, (insKeyed key x l).length = l.length + 1 := by
  intro l
  induction l with
  | nil => rfl
  | cons y ys ih =>
    unfold insKeyed
    split
    · simp
    · simp [ih]

theorem length_sortKeyed (key : α → Int) :
    ∀ l : List α, (sortKeyed key l).length = l.length := by
  intro l
  induction l with
  | nil => rfl
  | cons x xs ih => simp [sortKeyed, length_insKeyed, ih]

theorem perm_insKeyed (key : α → Int) (x : α) :
    ∀ l : List α, (insKeyed key x l).Perm (x :: l) := by
  intro l
  induction l with
  | nil => exact List.Perm.refl _
  | cons y ys ih =>
    unfold insKeyed
    split
    · exact List.Perm.refl _
    · exact (ih.cons y).trans (List.Perm.swap x y ys)

theorem perm_sortKeyed (key : α → Int) :
    ∀ l : List α, (sortKeyed key l).Perm l := by
  intro l
  induction l with
  | nil => exact List.Perm.refl _
  | cons x xs ih => exact (perm_insKeyed key x _).trans (ih.cons x)

theorem length_flatten_eq (L : List (List α)) :
    L.flatten.length = (L.map List.length).sum := by
  induction L with
  | nil => rfl
  | cons l ls ih => simp [ih]

theorem sum_map_add (f g : α → Nat) (l : List α) :
    (l.map (fun a => f a + g a)).sum = (l.map f).sum + (l.map g).sum := by
  induction l with
  | nil => rfl
  | cons a l ih =>
    simp only [List.map_cons, List.sum_cons, ih]
    omega

theorem sum_indicator_zero (x : String) :
    ∀ names : List String, x ∉ names →
      (names.map (fun nm => if x = nm then 1 else 0)).sum = 0 := by
  intro names
  induction names with
  | nil => intro _; rfl
  | cons nm nms ih =>
    intro hx
    have h1 : x ≠ nm := fun hcon => hx (by simp [hcon])
    have h2 : x ∉ nms := fun hcon => hx (by simp [hcon])
    simp [h1, ih h2]

theorem sum_indicator (x : String) :
    ∀ names : List String, names.Nodup →
      (names.map (fun nm => if x = nm then 1 else 0)).sum =
        if x ∈ names then 1 else 0 := by
  intro names
  induction names with
  | nil => intro _; rfl
  | cons nm nms ih =>
    intro hnd
    rw [List.nodup_cons] at hnd
    by_cases hx : x = nm
    · subst hx
      simp [sum_indicator_zero x nms hnd.1]
    · simp only [List.map_cons, List.sum_cons, if_neg hx, ih hnd.2]
      simp [hx]

theorem sum_filter_lengths (sections : List Section)
    (hnd : (sections.map Section.name).Nodup) :
    ∀ items : List Item,
      (sections.map (fun s =>
        (items.filter (fun i => i.section_name = s.name)).length)).sum =
      (items.filter
        (fun i => decide (i.section_name ∈ sections.map Section.name))).length := by
  intro items
  induction items with
  | nil => simp
  | cons i its ih =>
    have hL : (sections.map (fun s =>
        ((i :: its).filter (fun x => x.section_name = s.name)).length)) =
        sections.map (fun s => (if i.section_name = s.name then 1 else 0) +
          (its.filter (fun x => x.section_name = s.name)).length) := by
      apply map_congr_mem
      intro s _
      rw [List.filter_cons]
      by_cases h : i.section_name = s.name <;> simp [h] <;> omega
    rw [hL, sum_map_add, ih]
    have hind : (sections.map (fun s =>
        if i.section_name = s.name then 1 else 0)).sum =
        if i.section_name ∈ sections.map Section.name then 1 else 0 := by
      have hmm : sections.map (fun s => if i.section_name = s.name then 1 else 0) =
          (sections.map Section.name).map
            (fun nm => if i.section_name = nm then 1 else 0) := by
        rw [List.map_map]; rfl
      rw [hmm, sum_indicator _ _ hnd]
    rw [hind, List.filter_cons]
    by_cases h : i.section_name ∈ sections.map Section.name <;> simp [h] <;> omega

/-- Claim C10: save_meeting serializes exactly the items whose
`section_name` names an existing Section — every loaded item's section
name is a section name of the saved meeting; under distinct section names
the loaded item count equals the count of matching items; and an item whose
`section_name` matches no section is absent from any subsequent load. -/
theorem c10_orphan_items (t : Track) (u : Nat → Nat → Nat → Nat → String)
    (today now : String) (m : Meeting) :
    ∃ m', load_meeting_xml t u today now (save_meeting_xml m) = some m' ∧
      (∀ it' ∈ m'.items, it'.section_name ∈ m.sections.map Section.name) ∧
      ((m.sections.map Section.name).Nodup →
        m'.items.length = (m.items.filter
          (fun i => decide (i.section_name ∈ m.sections.map Section.name))).length) ∧
      (∀ it ∈ m.items, it.section_name ∉ m.sections.map Section.name →
        ∀ it' ∈ m'.items, it'.section_name ≠ it.section_name) := by
  have hmem : ∀ it' ∈ (normalize_meeting t u today now m).items,
      it'.section_name ∈ m.sections.map Section.name := by
    intro it' hit'
    simp only [normalize_meeting] at hit'
    rw [List.mem_flatten] at hit'
    obtain ⟨L, hL, hitL⟩ := hit'
    rw [List.mem_map] at hL
    obtain ⟨p, hp, rfl⟩ := hL
    rw [List.mem_map] at hitL
    obtain ⟨q, _, rfl⟩ := hitL
    show p.2.name ∈ m.sections.map Section.name
    have hps := enumL_mem_snd _ 0 p hp
    have := (mem_sortKeyed _ _ _).mp hps
    exact List.mem_map_of_mem Section.name this
  refine ⟨normalize_meeting t u today now m, decode_encode_meeting t u today now m,
    hmem, ?_, ?_⟩
  · intro hnd
    show ((enumL 0 (sortKeyed Section.order m.sections)).map _).flatten.length = _
    rw [length_flatten_eq, List.map_map]
    have hlen : ∀ p : Nat × Section,
        (List.length ∘ fun p : Nat × Section =>
          (enumL 0 (sortKeyed Item.order
            (m.items.filter (fun i => i.section_name = p.2.name)))).map
          (fun q => normalize_item u p.1 q.1 p.2.name
            (normalize_header t today m.header).date now q.2)) p =
        (m.items.filter (fun i => i.section_name = p.2.name)).length := by
      intro p
      simp only [Function.comp_apply, List.length_map, enumL_length,
        length_sortKeyed]
    rw [map_congr_mem _ (fun p : Nat × Section =>
        (m.items.filter (fun i => i.section_name = p.2.name)).length) _
      (fun p _ => hlen p)]
    rw [enumL_map_snd (fun s : Section =>
        (m.items.filter (fun i => i.section_name = s.name)).length)
      (sortKeyed Section.order m.sections) 0]
    have hperm : ((sortKeyed Section.order m.sections).map (fun s : Section =>
        (m.items.filter (fun i => i.section_name = s.name)).length)).sum =
        (m.sections.map (fun s : Section =>
          (m.items.filter (fun i => i.section_name = s.name)).length)).sum :=
      ((perm_sortKeyed Section.order m.sections).map _).sum_eq
    rw [hperm, sum_filter_lengths m.sections hnd m.items]
  · intro it hit hout it' hit'
    intro hcon
    exact hout (hcon ▸ hmem it' hit')

/-- Fixture item filed under a section name no section of its meeting
carries. -/
def orphanItem : Item :=
  { id := "ix", description := "orphan", status := "OPEN", assignee_id := none,
    priority := "Normal", due_date := none, tags := [], order := 0,
    section_name := "Nowhere", notes := [] }

/-- Fixture meeting: one section "Topics", one matching item and one orphan
item. -/
def mOrphan : Meeting :=
  { id := "m9", number := "0003",
    header := { topic := "T", date := "2024-01-03", start := "09:00",
                end_ := "10:00", location := "Room A", teams_link := "teams-link" },
    sections := [{ id := "s1", name := "Topics", order := 0 }],
    items :=
      [{ id := "i1", description := "kept", status := "OPEN", assignee_id := none,
         priority := "Normal", due_date := none, tags := [], order := 0,
         section_name := "Topics", notes := [] },
       orphanItem],
    finalized_at := none }

/-- Claim C10 witness: saving and reloading the concrete meeting keeps
exactly the one matching item and loses the orphan. -/
theorem c10_orphan_items_witness :
    ∃ m', load_meeting_xml track0 u0 "2024-01-03" "12:00:00"
        (save_meeting_xml mOrphan) = some m' ∧
      m'.items.length = 1 ∧
      ∀ it' ∈ m'.items, it'.section_name ≠ "Nowhere" := by
  obtain ⟨m', h1, _, h3, h4⟩ :=
    c10_orphan_items track0 u0 "2024-01-03" "12:00:00" mOrphan
  refine ⟨m', h1, ?_, ?_⟩
  · rw [h3 (by decide)]
    decide
  · intro it' hit'
    exact h4 orphanItem (by decide) (by decide) it' hit'

/-! ### Claim C1: save/load round trip -/

/-- Fixture meeting exercising two sections, items with notes, tags,
assignee, due date, unicode text, and satisfying the well-formedness
conditions under which the round trip is exact. -/
def mWF : Meeting :=
  { id := "m-wf", number := "0005",
    header := { topic := "Sprint Résumé ✓", date := "2024-01-05", start := "09:00",
                end_ := "10:00", location := "Room B", teams_link := "teams-link" },
    sections :=
      [{ id := "sg", name := "General", order := 0 },
       { id := "sa", name := "Actions", order := 1 }],
    items :=
      [{ id := "ig", description := "Überblick — status", status := "INFO",
         assignee_id := some "bob", priority := "High",
         due_date := some "2024-02-01", tags := ["übersicht", ""],
         order := 0, section_name := "General",
         notes := [{ id := "ng", text := "κείμενο", meeting_date := "2024-01-05",
                     created_at := "2024-01-05T09:10:00", is_addendum := true },
                   { id := "ng2", text := "", meeting_date := "2024-01-05",
                     created_at := "2024-01-05T09:11:00", is_addendum := false }] },
       { id := "ia", description := "", status := "OPEN", assignee_id := none,
         priority := "Normal", due_date := none, tags := [], order := -3,
         section_name := "Actions", notes := [] }],
    finalized_at := some "2024-01-05T10:00:00" }

/-- Claim C1 (amended): for a well-formed meeting — nonempty id, number and
defaultable header fields, `finalized_at` not the empty string, nonempty
section and item identifiers, no empty-string assignee/due-date, sections
already sorted by order, items listed section-major in order-sorted
position (so every item names an existing section) — loading what
save_meeting wrote reproduces every field of the meeting exactly. -/
theorem c1_roundtrip (t : Track) (u : Nat → Nat → Nat → Nat → String)
    (today now : String) (m : Meeting) (h : meeting_wf m) :
    load_meeting_xml t u today now (save_meeting_xml m) = some m := by
  rw [decode_encode_meeting, normalize_meeting_wf t u today now m h]

/-- Claim C1 witness: the concrete well-formed fixture meeting round-trips
to itself exactly. -/
theorem c1_roundtrip_witness :
    meeting_wf mWF ∧
    load_meeting_xml track0 u0 "2024-01-02" "12:00:00" (save_meeting_xml mWF) =
      some mWF :=
  ⟨by decide, c1_roundtrip track0 u0 "2024-01-02" "12:00:00" mWF (by decide)⟩

/-- Fixture meeting violating exactness: its location is the empty string
(present, not absent, in the written XML) and its single item names a
section that does not exist. -/
def mBad : Meeting :=
  { id := "m-bad", number := "0006",
    header := { topic := "T", date := "2024-01-06", start := "09:00",
                end_ := "10:00", location := "", teams_link := "teams-link" },
    sections := [{ id := "s1", name := "Topics", order := 0 }],
    items :=
      [{ id := "i1", description := "lost", status := "OPEN", assignee_id := none,
         priority := "Normal", due_date := none, tags := [], order := 0,
         section_name := "Elsewhere", notes := [] }],
    finalized_at := none }

/-- Claim C1 counterexample: decoding the XML save_meeting wrote for the
concrete meeting does not reproduce it — the empty (but present) location
comes back as the track default "Room A", and the item whose section_name
matches no section is gone — although neither field was absent and no
identifier was empty. -/
theorem c1_counterexample :
    load_meeting_xml track0 u0 "2024-01-02" "12:00:00" (save_meeting_xml mBad) ≠
      some mBad ∧
    (load_meeting_xml track0 u0 "2024-01-02" "12:00:00" (save_meeting_xml mBad)).map
      (fun mm => (mm.header.location, mm.items.length)) = some ("Room A", 0) ∧
    mBad.header.location = "" ∧
    mBad.items.length = 1 := by
  decide

end MMT
